import Mathlib

/-!
Verification development for the RE2 front-end matching facade
(`src/re2/re2.cc`).  The file embeds the data model and the operations of
the facade as executable Lean definitions and proves the specified
properties about them.  Bytes are modelled as `Nat` values below 256 and
text buffers as `List Nat`.  The external search engines (`Prog::SearchDFA`,
`Prog::SearchNFA`, `Prog::SearchOnePass`, `Prog::SearchBitState` and the
reverse program) are collaborators declared outside this file's source;
they are modelled as oracle function bundles, so every theorem about the
orchestrator quantifies over their behaviour.
-/

namespace RE2V

/-- A `StringPiece` capture slot: either the NULL piece (`data() == NULL`,
as produced by `submatch[i] = NULL`) or a byte range `[b, e)` of offsets
into the original text. -/
inductive Span where
  | null : Span
  | range (b e : Nat) : Span
deriving DecidableEq, Repr

/-- Size of a capture slot (`StringPiece::size()`; the NULL piece has size 0). -/
def Span.size : Span → Nat
  | Span.null => 0
  | Span.range b e => e - b

/-- Begin pointer of a capture slot, `none` modelling the NULL pointer. -/
def spanBeginP : Span → Option Nat
  | Span.null => none
  | Span.range b _ => some b

/-- End offset of a capture slot (`StringPiece::end()`), the NULL pointer
modelled as offset 0. -/
def spanEnd0 : Span → Nat
  | Span.null => 0
  | Span.range _ e => e

/-- Begin offset of a capture slot, the NULL pointer modelled as offset 0. -/
def spanLo : Span → Nat
  | Span.null => 0
  | Span.range b _ => b

/-- End offset of a capture slot, the NULL pointer modelled as offset 0. -/
def spanHi : Span → Nat
  | Span.null => 0
  | Span.range _ e => e

/-- The prefix fix-up of `RE2::Match`:
`submatch[0] = StringPiece(submatch[0].begin() - prefixlen, submatch[0].size() + prefixlen)`,
i.e. the span is widened leftward by `p` bytes. -/
def widenLeft (p : Nat) : Span → Span
  | Span.null => Span.null
  | Span.range b e => Span.range (b - p) e

/-- The `RE2::Anchor` enumeration. -/
inductive Anchor where
  | UNANCHORED : Anchor
  | ANCHOR_START : Anchor
  | ANCHOR_BOTH : Anchor
deriving DecidableEq, Repr

/-- The `Prog::Anchor` enumeration. -/
inductive ProgAnchor where
  | kUnanchored : ProgAnchor
  | kAnchored : ProgAnchor
deriving DecidableEq, Repr

/-- The `Prog::MatchKind` enumeration. -/
inductive MatchKind where
  | kFirstMatch : MatchKind
  | kLongestMatch : MatchKind
  | kFullMatch : MatchKind
deriving DecidableEq, Repr

/-- The state of a constructed `RE2` object that the matching code reads:
`ok()` (`error_ == &empty_string`), the required literal prefix `prefix_`
and its `prefix_foldcase_` flag, `suffix_regexp_->NumCaptures()`,
`is_one_pass_`, `prog_->size()`, `prog_->anchor_start()`,
`prog_->anchor_end()` and `options_.longest_match()`. -/
structure RE2 where
  ok : Bool
  pfx : List Nat
  pfxFold : Bool
  num_captures : Nat
  is_one_pass : Bool
  prog_size : Nat
  anchor_start : Bool
  anchor_end : Bool
  longest_match : Bool

/-- Result of a DFA search: the `bool` return value of `Prog::SearchDFA`,
the `dfa_failed` out-parameter, and the match span it reports. -/
structure DFAOut where
  found : Bool
  failed : Bool
  m : Span

/-- Modelled from the spec: the external search engines (`Prog::SearchDFA`,
the lazily built reverse program, `Prog::SearchOnePass`,
`Prog::SearchBitState`, `Prog::SearchNFA`) and the one-pass capture cap
`Prog::kMaxOnePassCapture` are collaborators declared outside the source
file; they are modelled as an oracle bundle.  A forward search receives the
window `[lo, hi)` of offsets into the text, a `Prog::Anchor`, a
`Prog::MatchKind` and (for the DFA) whether the caller wants the match
location; capture engines receive the requested capture count and return
the capture vector on success.  `revDFA = none` models a reverse program
whose compilation failed (`ReverseProg() == NULL`). -/
structure Engines where
  maxOnePassCapture : Nat
  searchDFA : Nat → Nat → ProgAnchor → MatchKind → Bool → DFAOut
  revDFA : Option (Span → DFAOut)
  searchOnePass : Nat → Nat → ProgAnchor → MatchKind → Nat → Option (List Span)
  searchBitState : Nat → Nat → ProgAnchor → MatchKind → Nat → Option (List Span)
  searchNFA : Nat → Nat → ProgAnchor → MatchKind → Nat → Option (List Span)

/-- `int ncap = 1 + NumberOfCapturingGroups(); if (ncap > nsubmatch) ncap = nsubmatch;` -/
def ncapOf (re : RE2) (nsub : Nat) : Nat :=
  min (1 + re.num_captures) nsub

/-- Anchor promotion from program properties:
`if (prog_->anchor_start() && prog_->anchor_end()) re_anchor = ANCHOR_BOTH;
else if (prog_->anchor_start() && re_anchor != ANCHOR_BOTH) re_anchor = ANCHOR_START;` -/
def promoteAnchor (re : RE2) (anc : Anchor) : Anchor :=
  if re.anchor_start && re.anchor_end then Anchor.ANCHOR_BOTH
  else if re.anchor_start && !(anc = Anchor.ANCHOR_BOTH) then Anchor.ANCHOR_START
  else anc

/-- `Prog::MatchKind kind = Prog::kFirstMatch; if (options_.longest_match()) kind = Prog::kLongestMatch;` -/
def kind0 (re : RE2) : MatchKind :=
  if re.longest_match then MatchKind.kLongestMatch else MatchKind.kFirstMatch

/-- `bool can_one_pass = (is_one_pass_ && ncap <= Prog::kMaxOnePassCapture);`
The cap is supplied by the engine bundle. -/
def canOnePass (re : RE2) (cap ncap : Nat) : Bool :=
  re.is_one_pass && decide (ncap ≤ cap)

/-- `bool can_bit_state = prog_->size() <= MaxBitStateProg;` with `MaxBitStateProg = 500`. -/
def canBitState (re : RE2) : Bool :=
  decide (re.prog_size ≤ 500)

/-- `int bit_state_text_max = MaxBitStateVector / prog_->size();` with
`MaxBitStateVector = 256*1024`. -/
def bitMax (re : RE2) : Nat :=
  256 * 1024 / re.prog_size

/-- ASCII fold used by `ascii_strcasecmp`: an uppercase ASCII letter of the
text is lowered before comparing with the (already lowercase) prefix byte. -/
def foldByte (c : Nat) : Nat :=
  if 65 ≤ c ∧ c ≤ 90 then c + 32 else c

/-- The required-prefix filter of `RE2::Match` (lines 644-654): false when
fewer than `|prefix_|` bytes remain in `subtext`, or when the leading bytes
differ under `memcmp` (plain) or `ascii_strcasecmp` (when `prefix_foldcase_`). -/
def pfxMatches (re : RE2) (text : List Nat) (sp : Nat) : Bool :=
  let sub := text.drop sp
  let pl := re.pfx.length
  if pl > sub.length then false
  else if re.pfxFold then decide (re.pfx = (sub.take pl).map foldByte)
  else decide (re.pfx = sub.take pl)

/-- Outcome of the engine-dispatch `switch (re_anchor)` of `RE2::Match`:
no match; an early `return true` (`matchp == NULL`); an exact match
location found by the DFA (`skipped_test == false`); or `skipped_test ==
true` together with the `anchor`/`kind` values that flow into the
capture-aware engine ladder. -/
inductive DispatchOut where
  | nomatch : DispatchOut
  | earlyTrue : DispatchOut
  | located (m : Span) : DispatchOut
  | skipped (a : ProgAnchor) (k : MatchKind) : DispatchOut
deriving Repr

/-- The `switch (re_anchor)` of `RE2::Match` (lines 680-771).  `lo`/`textLen`
bound `subtext` inside `text`; `wantMatch` is `matchp != NULL`
(`nsubmatch != 0`).  In the unanchored arm a forward DFA scan is followed
by a reverse DFA scan to locate the match start; in the anchored arm the
DFA is skipped entirely for OnePass or BitState on the stated conditions.
Wherever a DFA reports failure (`dfa_failed`), `skipped_test` is set and
control falls through to the engine ladder. -/
def dispatch (re : RE2) (E : Engines) (lo textLen : Nat) (anc : Anchor)
    (wantMatch : Bool) (ncap : Nat) : DispatchOut :=
  match anc with
  | Anchor.UNANCHORED =>
    let r := E.searchDFA lo textLen ProgAnchor.kUnanchored (kind0 re) wantMatch
    if r.found then
      if wantMatch then
        match E.revDFA with
        | none => DispatchOut.nomatch
        | some f =>
          let r2 := f r.m
          if r2.found then DispatchOut.located r2.m
          else if r2.failed then DispatchOut.skipped ProgAnchor.kUnanchored (kind0 re)
          else DispatchOut.nomatch
      else DispatchOut.earlyTrue
    else if r.failed then DispatchOut.skipped ProgAnchor.kUnanchored (kind0 re)
    else DispatchOut.nomatch
  | _ =>
    let k := if anc = Anchor.ANCHOR_BOTH then MatchKind.kFullMatch else kind0 re
    if canOnePass re E.maxOnePassCapture ncap ∧ textLen ≤ 4096 ∧ (1 < ncap ∨ textLen ≤ 8) then
      DispatchOut.skipped ProgAnchor.kAnchored k
    else if canBitState re ∧ textLen ≤ bitMax re ∧ 1 < ncap then
      DispatchOut.skipped ProgAnchor.kAnchored k
    else
      let r := E.searchDFA lo textLen ProgAnchor.kAnchored k true
      if r.found then DispatchOut.located r.m
      else if r.failed then DispatchOut.skipped ProgAnchor.kAnchored k
      else DispatchOut.nomatch

/-- Writes the capture vector returned by an engine into the first `ncap`
slots of the caller's submatch buffer (the engines fill
`submatch[0..ncap)`); `i` is the index of the first buffer slot. -/
def writeCapsAux (ncap : Nat) (caps : List Span) : Nat → List Span → List Span
  | _, [] => []
  | i, s :: rest =>
    (if i < ncap then caps.getD i Span.null else s) :: writeCapsAux ncap caps (i + 1) rest

/-- Writes the capture vector returned by an engine into the submatch buffer. -/
def writeCaps (ncap : Nat) (caps : List Span) (buf : List Span) : List Span :=
  writeCapsAux ncap caps 0 buf

/-- The capture-aware engine ladder of `RE2::Match` (lines 792-820):
`SearchOnePass` when `can_one_pass` and the search is anchored, else
`SearchBitState` when `can_bit_state` and the window fits the bit-vector
cap, else `SearchNFA`.  An engine returning no match yields `none`
(`return false`). -/
def ladder (re : RE2) (E : Engines) (lo hi : Nat) (a : ProgAnchor) (k : MatchKind)
    (ncap : Nat) (buf : List Span) : Option (List Span) :=
  if canOnePass re E.maxOnePassCapture ncap ∧ ¬(a = ProgAnchor.kUnanchored) then
    (E.searchOnePass lo hi a k ncap).map (fun caps => writeCaps ncap caps buf)
  else if canBitState re ∧ hi - lo ≤ bitMax re then
    (E.searchBitState lo hi a k ncap).map (fun caps => writeCaps ncap caps buf)
  else
    (E.searchNFA lo hi a k ncap).map (fun caps => writeCaps ncap caps buf)

/-- Joins the dispatch outcome with the capture step of `RE2::Match`
(lines 773-821): with an exact location and `ncap <= 1` the match span is
written directly; otherwise a capture-aware engine re-runs over the located
range (`Anchored`, `FullMatch`) or, when the DFA was skipped, over the
whole `subtext` with the dispatch-time anchor and kind. -/
def afterDispatch (re : RE2) (E : Engines) (lo textLen ncap : Nat) (buf : List Span) :
    DispatchOut → Option (List Span)
  | DispatchOut.nomatch => none
  | DispatchOut.earlyTrue => some buf
  | DispatchOut.located m =>
    if ncap ≤ 1 then some (if ncap = 1 then buf.set 0 m else buf)
    else ladder re E (spanLo m) (spanHi m) ProgAnchor.kAnchored MatchKind.kFullMatch ncap buf
  | DispatchOut.skipped a k => ladder re E lo textLen a k ncap buf

/-- The body of `RE2::Match` up to the post-processing: the `ok()` check,
the required-prefix filter with its anchor raise, the anchor promotion, the
engine dispatch and the capture step.  `none` models `return false` with
the caller's buffer untouched; `some` carries the buffer before the prefix
fix-up and the zeroing of out-of-range slots. -/
def re2MatchRaw (re : RE2) (E : Engines) (text : List Nat) (sp : Nat) (anc : Anchor)
    (buf : List Span) (nsub : Nat) : Option (List Span) :=
  if re.ok then
    let textLen := text.length
    let ncap := ncapOf re nsub
    let anc1 := promoteAnchor re anc
    if re.pfx.isEmpty then
      afterDispatch re E sp textLen ncap buf (dispatch re E sp textLen anc1 (!(nsub = 0)) ncap)
    else if pfxMatches re text sp then
      afterDispatch re E (sp + re.pfx.length) textLen ncap buf
        (dispatch re E (sp + re.pfx.length) textLen
          (if anc1 = Anchor.ANCHOR_BOTH then anc1 else Anchor.ANCHOR_START) (!(nsub = 0)) ncap)
    else none
  else none

/-- The zeroing loop `for (int i = ncap; i < nsubmatch; i++) submatch[i] = NULL;`
with `i` the index of the first buffer slot. -/
def zeroFromAux (ncap nsub : Nat) : Nat → List Span → List Span
  | _, [] => []
  | i, s :: rest =>
    (if ncap ≤ i ∧ i < nsub then Span.null else s) :: zeroFromAux ncap nsub (i + 1) rest

/-- Zeroes the submatch slots `[ncap, nsub)` that do not exist in the regexp. -/
def zeroFrom (ncap nsub : Nat) (buf : List Span) : List Span :=
  zeroFromAux ncap nsub 0 buf

/-- The prefix fix-up
`if (prefixlen > 0 && nsubmatch > 0) submatch[0] = StringPiece(begin - prefixlen, size + prefixlen);`. -/
def pfxFixup (plen nsub : Nat) (buf : List Span) : List Span :=
  if 0 < plen ∧ 0 < nsub then buf.set 0 (widenLeft plen (buf.getD 0 Span.null)) else buf

/-- `RE2::Match`: the raw matching body followed by the prefix fix-up and
the zeroing of submatch slots beyond the capture count.  The first
component is the boolean result; the second is the caller's submatch
buffer after the call (unchanged when the result is false). -/
def re2Match (re : RE2) (E : Engines) (text : List Nat) (sp : Nat) (anc : Anchor)
    (buf : List Span) (nsub : Nat) : Bool × List Span :=
  match re2MatchRaw re E text sp anc buf nsub with
  | none => (false, buf)
  | some rb => (true, zeroFrom (ncapOf re nsub) nsub (pfxFixup re.pfx.length nsub rb))

/-- `isdigit` on a byte value. -/
def isdigitB (c : Nat) : Bool :=
  decide (48 ≤ c ∧ c ≤ 57)

/-- `MaxSubmatch` (lines 415-430): the largest capture index referenced by
a `\d` escape in the rewrite template. -/
def maxSubmatch : List Nat → Nat
  | [] => 0
  | 92 :: rest =>
    match rest with
    | [] => 0
    | c :: rest2 =>
      if isdigitB c then max (c - 48) (maxSubmatch rest2) else maxSubmatch rest2
  | _ :: rest => maxSubmatch rest

/-- The bytes of the original text covered by a capture slot (what
`Rewrite` appends for `vec[n]`; the NULL piece contributes nothing). -/
def snipBytes (str : List Nat) : Span → List Nat
  | Span.null => []
  | Span.range b e => (str.take e).drop b

/-- `RE2::Rewrite` (lines 904-933): walks the template; `\\` emits a
backslash, `\d` appends capture `d` (an index `>= veclen` is an error), any
other escape or a trailing backslash is an error; literals are copied.
Returns the success flag together with the bytes appended to `out` before
the walk stopped (`GlobalReplace` ignores the flag, so the partial output
matters). -/
def rewriteRun (str : List Nat) (vec : List Span) : List Nat → Bool × List Nat
  | [] => (true, [])
  | 92 :: rest =>
    match rest with
    | [] => (false, [])
    | c :: rest2 =>
      if isdigitB c then
        if vec.length ≤ c - 48 then (false, [])
        else
          let r := rewriteRun str vec rest2
          (r.1, snipBytes str (vec.getD (c - 48) Span.null) ++ r.2)
      else if c = 92 then
        let r := rewriteRun str vec rest2
        (r.1, 92 :: r.2)
      else (false, [])
  | c :: rest =>
    let r := rewriteRun str vec rest
    (r.1, c :: r.2)

/-- The success flag of `RE2::Rewrite` as a function of the capture-vector
length alone (the walk only compares indices against `veclen`). -/
def rewriteOk (veclen : Nat) : List Nat → Bool
  | [] => true
  | 92 :: rest =>
    match rest with
    | [] => false
    | c :: rest2 =>
      if isdigitB c then
        if veclen ≤ c - 48 then false else rewriteOk veclen rest2
      else if c = 92 then rewriteOk veclen rest2
      else false
  | _ :: rest => rewriteOk veclen rest

/-- The template scan of `RE2::CheckRewriteString` (lines 946-970):
`none` on a malformed escape (trailing backslash, or backslash before a
non-digit non-backslash byte), otherwise the running maximum capture index
(`max_token`, starting at -1). -/
def checkLoop : List Nat → Int → Option Int
  | [], m => some m
  | 92 :: rest, m =>
    match rest with
    | [] => none
    | c :: rest2 =>
      if c = 92 then checkLoop rest2 m
      else if isdigitB c then checkLoop rest2 (max m ((c : Int) - 48))
      else none
  | _ :: rest, m => checkLoop rest m

/-- `RE2::CheckRewriteString`: the template scan followed by
`max_token > NumberOfCapturingGroups()` (`ncap`, nonnegative for a valid
pattern). -/
def checkRewriteString (ncap : Nat) (t : List Nat) : Bool :=
  match checkLoop t (-1) with
  | none => false
  | some m => decide (m ≤ (ncap : Int))

/-- `RE2::QuoteMeta` (lines 508-544): each ASCII byte outside
`[A-Za-z0-9_]` without the high bit set is escaped with a backslash, NUL
becomes the four bytes `\x00`, everything else is copied. -/
def quoteMeta : List Nat → List Nat
  | [] => []
  | c :: rest =>
    if (c < 97 ∨ 122 < c) ∧ (c < 65 ∨ 90 < c) ∧ (c < 48 ∨ 57 < c) ∧ c ≠ 95 ∧ c < 128 then
      if c = 0 then 92 :: 120 :: 48 :: 48 :: quoteMeta rest
      else 92 :: c :: quoteMeta rest
    else c :: quoteMeta rest

/-- Per-byte output of the quoter as the spec words it: bytes that are
ASCII alphanumeric, underscore, or have the high bit set pass unchanged;
the NUL byte becomes `\x00`; every other byte is preceded by a backslash.
Stated from the spec to compare with `quoteMeta`. -/
def qmByteSpec (c : Nat) : List Nat :=
  if (97 ≤ c ∧ c ≤ 122) ∨ (65 ≤ c ∧ c ≤ 90) ∨ (48 ≤ c ∧ c ≤ 57) ∨ c = 95 ∨ 128 ≤ c then [c]
  else if c = 0 then [92, 120, 48, 48]
  else [92, c]

/-- `RE2::DoMatch` (lines 835-900): the `ok()` short-circuit, the capture
vector sizing `nvec = (n == 0 && consumed == NULL) ? 0 : n+1`, the call to
`Match` anchored at `anchor`, the write of `*consumed = vec[0].end() -
text.begin()`, the rejection when the pattern has fewer capturing groups
than extraction arguments, and the argument parses on `vec[1..n]`.  A
parser is modelled as a predicate on the capture slot it receives.  The
second component is the value written to `*consumed` (written before the
group-count check, as in the source). -/
def doMatch (re : RE2) (E : Engines) (text : List Nat) (anchor : Anchor)
    (wantConsumed : Bool) (parsers : List (Span → Bool)) : Bool × Option Nat :=
  if re.ok then
    let n := parsers.length
    let nvec := if n = 0 ∧ wantConsumed = false then 0 else n + 1
    match re2Match re E text 0 anchor (List.replicate nvec Span.null) nvec with
    | (false, _) => (false, none)
    | (true, vec) =>
      let consumed := if wantConsumed then some (spanEnd0 (vec.getD 0 Span.null)) else none
      if n = 0 then (true, consumed)
      else if re.num_captures < n then (false, consumed)
      else if ((parsers.zip (vec.drop 1)).all fun pc => pc.1 pc.2) then (true, consumed)
      else (false, consumed)
  else (false, none)

/-- `RE2::FullMatch`: `DoMatch(text, ANCHOR_BOTH, NULL, args, n)`. -/
def fullMatch (re : RE2) (E : Engines) (text : List Nat) (parsers : List (Span → Bool)) : Bool :=
  (doMatch re E text Anchor.ANCHOR_BOTH false parsers).1

/-- `RE2::PartialMatch`: `DoMatch(text, UNANCHORED, NULL, args, n)`. -/
def partMatch (re : RE2) (E : Engines) (text : List Nat) (parsers : List (Span → Bool)) : Bool :=
  (doMatch re E text Anchor.UNANCHORED false parsers).1

/-- `RE2::Consume`: `DoMatch(*input, ANCHOR_START, &consumed, args, n)`;
on success the input is advanced past the match, so the result carries the
number of consumed bytes. -/
def consume (re : RE2) (E : Engines) (text : List Nat) (parsers : List (Span → Bool)) :
    Option Nat :=
  match doMatch re E text Anchor.ANCHOR_START true parsers with
  | (true, c) => c
  | (false, _) => none

/-- `RE2::FindAndConsume`: `DoMatch(*input, UNANCHORED, &consumed, args, n)`. -/
def findAndConsume (re : RE2) (E : Engines) (text : List Nat) (parsers : List (Span → Bool)) :
    Option Nat :=
  match doMatch re E text Anchor.UNANCHORED true parsers with
  | (true, c) => c
  | (false, _) => none

/-- `RE2::Replace` (lines 432-450): one unanchored match, one rewrite, and
an in-place splice of the rewritten bytes over the whole-match span.
`none` models `return false` with `*str` untouched. -/
def replace (re : RE2) (E : Engines) (str : List Nat) (rw : List Nat) : Option (List Nat) :=
  let nvec := 1 + maxSubmatch rw
  if 17 < nvec then none
  else
    match re2Match re E str 0 Anchor.UNANCHORED (List.replicate nvec Span.null) nvec with
    | (false, _) => none
    | (true, vec) =>
      let r := rewriteRun str vec rw
      if r.1 then
        some (str.take (spanLo (vec.getD 0 Span.null)) ++ r.2
          ++ str.drop (spanHi (vec.getD 0 Span.null)))
      else none

/-- One round of the `GlobalReplace` loop state: cursor `p`, the end of the
previous substitution `lastend` (`none` models the initial NULL pointer),
the accumulated output and the substitution count. -/
def grLoop (re : RE2) (E : Engines) (str rw : List Nat) (nvec : Nat) :
    Nat → Nat → Option Nat → List Nat → Nat → Option (Nat × Nat × List Nat)
  | 0, _, _, _, _ => none
  | fuel + 1, p, lastend, out, count =>
    if str.length < p then some (count, p, out)
    else
      match re2Match re E str p Anchor.UNANCHORED (List.replicate nvec Span.null) nvec with
      | (false, _) => some (count, p, out)
      | (true, vec) =>
        let m0 := vec.getD 0 Span.null
        let out1 :=
          match spanBeginP m0 with
          | some b => if p < b then out ++ ((str.take b).drop p) else out
          | none => out
        if spanBeginP m0 = lastend ∧ m0.size = 0 then
          let out2 := if p < str.length then out1 ++ [str.getD p 0] else out1
          grLoop re E str rw nvec fuel (p + 1) lastend out2 count
        else
          let out2 := out1 ++ (rewriteRun str vec rw).2
          grLoop re E str rw nvec fuel (spanEnd0 m0) (some (spanEnd0 m0)) out2 (count + 1)

/-- `RE2::GlobalReplace` (lines 452-490): repeatedly match unanchored from
the cursor, copy the gap, skip one byte verbatim on an empty match that
starts where the previous substitution ended, otherwise rewrite (the
rewrite's success flag is ignored) and advance to the match end; return
the substitution count, swapping the output into `*str` only when at least
one substitution happened.  The loop is run on fuel `2*|str| + 4` (more
than the source loop can ever iterate); `none` would mean fuel ran out. -/
def globalReplace (re : RE2) (E : Engines) (str rw : List Nat) : Option (Nat × List Nat) :=
  let nvec := 1 + maxSubmatch rw
  if 17 < nvec then some (0, str)
  else
    match grLoop re E str rw nvec (2 * str.length + 4) 0 none [] 0 with
    | none => none
    | some (count, p, out) =>
      if count = 0 then some (0, str)
      else some (count, out ++ str.drop p)

/-- `RE2::Extract` (lines 492-506): one unanchored match, then the rewrite
into the cleared output.  `none` models a failed match (`*out` untouched);
`some (flag, s)` models `*out` being set to `s` with `flag` the return
value (on a rewrite error the partial output is still in `*out`). -/
def extract (re : RE2) (E : Engines) (text rw : List Nat) : Option (Bool × List Nat) :=
  let nvec := 1 + maxSubmatch rw
  if 17 < nvec then none
  else
    match re2Match re E text 0 Anchor.UNANCHORED (List.replicate nvec Span.null) nvec with
    | (false, _) => none
    | (true, vec) => some (rewriteRun text vec rw)

/-- `isspace` on a byte value (space or one of the C0 whitespace controls). -/
def isspaceB (c : Nat) : Bool :=
  c = 32 || (9 ≤ c && c ≤ 13)

/-- The lookahead test of `TerminateNumber`: the byte right after the
captured substring could extend a number (a decimal digit or a hex
letter). -/
def numberish (c : Nat) : Bool :=
  isdigitB c || (97 ≤ c && c ≤ 102) || (65 ≤ c && c ≤ 70)

/-- Maximal run of decimal digits: the value (on top of the accumulator)
and the number of bytes consumed, as `strtol`-family parsing consumes them. -/
def decDigits : List Nat → Nat → Nat × Nat
  | [], acc => (acc, 0)
  | c :: rest, acc =>
    if isdigitB c then
      let r := decDigits rest (acc * 10 + (c - 48))
      (r.1, r.2 + 1)
    else (acc, 0)

/-- `strtoul` in base 10 on the terminated buffer: an optional plus sign
followed by digits; the result is the parsed value and the number of bytes
consumed (0 when no conversion was performed).  The out-of-range check is
done by the caller against the word width. -/
def strtoulConsume (s : List Nat) : Nat × Nat :=
  match s with
  | 43 :: rest =>
    let r := decDigits rest 0
    if r.2 = 0 then (0, 0) else (r.1, r.2 + 1)
  | _ =>
    decDigits s 0

/-- `strtol` in base 10 on the terminated buffer: optional sign then
digits; returns the sign, the magnitude and the bytes consumed. -/
def strtolConsume (s : List Nat) : Bool × Nat × Nat :=
  match s with
  | 43 :: rest =>
    let r := decDigits rest 0
    if r.2 = 0 then (false, 0, 0) else (false, r.1, r.2 + 1)
  | 45 :: rest =>
    let r := decDigits rest 0
    if r.2 = 0 then (false, 0, 0) else (true, r.1, r.2 + 1)
  | _ =>
    let r := decDigits s 0
    (false, r.1, r.2)

/-- `TerminateNumber` (lines 1024-1044) producing a parseable pointer:
false when the input starts with whitespace, or when the following byte
could extend the number and the input exceeds `kMaxNumberLength = 32`
bytes (both cases return `""`, which can never parse). -/
def terminateOk (s : List Nat) (next : Nat) : Bool :=
  !(isspaceB (s.headD 0)) && !(numberish next && decide (32 < s.length))

/-- `RE2::Arg::parse_ulong_radix` at radix 10 on a `W`-bit `unsigned long`
(lines 1063-1084): empty input, a leading space, an over-long input before
a digit-like byte, a leading minus sign, leftover junk and `strtoul` range
errors (value at least `2^W`) all fail; otherwise the parsed value is
stored. -/
def parse_ulong (W : Nat) (s : List Nat) (next : Nat) : Option Nat :=
  if s.length = 0 then none
  else if terminateOk s next = false then none
  else if s.headD 0 = 45 then none
  else
    let r := strtoulConsume s
    if r.2 ≠ s.length then none
    else if 2 ^ W ≤ r.1 then none
    else some r.1

/-- `RE2::Arg::parse_long_radix` at radix 10 on a `W`-bit `long` (lines
1046-1061): like the unsigned parser but signed, with `strtol` range
errors (value outside `[-2^(W-1), 2^(W-1) - 1]`) failing. -/
def parse_long (W : Nat) (s : List Nat) (next : Nat) : Option Int :=
  if s.length = 0 then none
  else if terminateOk s next = false then none
  else
    let r := strtolConsume s
    if r.2.2 ≠ s.length then none
    else if r.1 then
      if 2 ^ (W - 1) < r.2.1 then none else some (-(r.2.1 : Int))
    else
      if 2 ^ (W - 1) ≤ r.2.1 then none else some (r.2.1 : Int)

/-- `RE2::Arg::parse_uint_radix` at radix 10 (lines 1122-1132): parse
through the `unsigned long` routine, then fail when the value does not fit
a 32-bit `unsigned int` (`(uint)r != r`). -/
def parse_uint (W : Nat) (s : List Nat) (next : Nat) : Option Nat :=
  match parse_ulong W s next with
  | none => none
  | some r => if 2 ^ 32 ≤ r then none else some r

/-- `RE2::Arg::parse_ushort_radix` at radix 10 (lines 1098-1108): parse
through the `unsigned long` routine, then fail when the value does not fit
a 16-bit `unsigned short`. -/
def parse_ushort (W : Nat) (s : List Nat) (next : Nat) : Option Nat :=
  match parse_ulong W s next with
  | none => none
  | some r => if 2 ^ 16 ≤ r then none else some r

/-- `RE2::Arg::parse_int_radix` at radix 10 (lines 1110-1120): parse
through the `long` routine, then fail when the value does not fit a 32-bit
`int`. -/
def parse_int (W : Nat) (s : List Nat) (next : Nat) : Option Int :=
  match parse_long W s next with
  | none => none
  | some r => if r < -(2 ^ 31) ∨ (2 ^ 31 : Int) ≤ r then none else some r

/-- `RE2::Arg::parse_short_radix` at radix 10 (lines 1086-1096): parse
through the `long` routine, then fail when the value does not fit a 16-bit
`short`. -/
def parse_short (W : Nat) (s : List Nat) (next : Nat) : Option Int :=
  match parse_long W s next with
  | none => none
  | some r => if r < -(2 ^ 15) ∨ (2 ^ 15 : Int) ≤ r then none else some r

/-- The DFA-skip decision of the anchored dispatch arm, as the source
writes it (lines 743 and 750): skip for OnePass, or skip for BitState. -/
def dfaSkipAnchored (re : RE2) (cap textLen ncap : Nat) : Bool :=
  (canOnePass re cap ncap && decide (textLen ≤ 4096)
      && (decide (1 < ncap) || decide (textLen ≤ 8)))
    || (canBitState re && decide (textLen ≤ bitMax re) && decide (1 < ncap))

/-- The DFA-skip decision as the spec words it: the pattern is one-pass
and the requested capture count is within the one-pass cap and the text
has at most 4096 bytes and (more than one capture is requested or the text
has at most 8 bytes); or the forward program has at most 500 instructions
and the text is at most `floor(256*1024 / program size)` bytes and more
than one capture is requested.  Stated from the spec to compare with
`dfaSkipAnchored`. -/
def dfaSkipSpec (re : RE2) (cap textLen ncap : Nat) : Bool :=
  (re.is_one_pass && decide (ncap ≤ cap) && decide (textLen ≤ 4096)
      && (decide (1 < ncap) || decide (textLen ≤ 8)))
    || (decide (re.prog_size ≤ 500) && decide (textLen ≤ 256 * 1024 / re.prog_size)
      && decide (1 < ncap))

/-- The effective anchor of a `Match` call: the caller's anchor after the
promotion from program properties and, when a required literal prefix
exists, the raise to at least `ANCHOR_START`. -/
def effAnchor (re : RE2) (anc : Anchor) : Anchor :=
  if re.pfx.isEmpty then promoteAnchor re anc
  else if promoteAnchor re anc = Anchor.ANCHOR_BOTH then Anchor.ANCHOR_BOTH
  else Anchor.ANCHOR_START

/-- A DFA oracle that always finds a match ending where the window starts. -/
def dfaYes : Nat → Nat → ProgAnchor → MatchKind → Bool → DFAOut :=
  fun lo _ _ _ _ => ⟨true, false, Span.range lo lo⟩

/-- A DFA oracle that always reports no match (and no failure). -/
def dfaNo : Nat → Nat → ProgAnchor → MatchKind → Bool → DFAOut :=
  fun _ _ _ _ _ => ⟨false, false, Span.null⟩

/-- An engine bundle whose reverse and capture engines always succeed,
with a caller-chosen forward DFA oracle; used to observe whether a `Match`
call consults the forward DFA. -/
def allYesE (cap : Nat) (d : Nat → Nat → ProgAnchor → MatchKind → Bool → DFAOut) : Engines where
  maxOnePassCapture := cap
  searchDFA := d
  revDFA := some (fun m => ⟨true, false, m⟩)
  searchOnePass := fun _ _ _ _ n => some (List.replicate n (Span.range 0 0))
  searchBitState := fun _ _ _ _ n => some (List.replicate n (Span.range 0 0))
  searchNFA := fun _ _ _ _ n => some (List.replicate n (Span.range 0 0))

/-- An `RE2` whose construction failed (`error_ != &empty_string`). -/
def reBad : RE2 where
  ok := false
  pfx := []
  pfxFold := false
  num_captures := 0
  is_one_pass := false
  prog_size := 1
  anchor_start := false
  anchor_end := false
  longest_match := false

/-- The compiled state of the pattern `a*`: valid, no required prefix, no
capturing groups, no anchors. -/
def reStar : RE2 where
  ok := true
  pfx := []
  pfxFold := false
  num_captures := 0
  is_one_pass := true
  prog_size := 3
  anchor_start := false
  anchor_end := false
  longest_match := false

/-- Modelled from the spec: the engine behaviour of the pattern `a*` on a
text containing no `a`, such as `"bbb"` — the leftmost-first match from
any start offset is the empty match at that offset, so the forward DFA
reports the match end at the window start and the reverse DFA confirms the
empty span. -/
def engStar : Engines where
  maxOnePassCapture := 5
  searchDFA := fun lo _ _ _ _ => ⟨true, false, Span.range lo lo⟩
  revDFA := some (fun m => ⟨true, false, m⟩)
  searchOnePass := fun _ _ _ _ _ => none
  searchBitState := fun _ _ _ _ _ => none
  searchNFA := fun _ _ _ _ _ => none

/-- The compiled state of the pattern `a` as a single-byte matcher with no
factored prefix: valid, no capturing groups, no anchors. -/
def reLitA : RE2 where
  ok := true
  pfx := []
  pfxFold := false
  num_captures := 0
  is_one_pass := true
  prog_size := 2
  anchor_start := false
  anchor_end := false
  longest_match := false

/-- Modelled from the spec: the engine behaviour of the pattern `a` on the
one-byte text `"a"` — searching from offset 0 finds the match `[0, 1)`,
searching from offset 1 finds nothing. -/
def engLitA : Engines where
  maxOnePassCapture := 5
  searchDFA := fun lo _ _ _ _ =>
    if lo = 0 then ⟨true, false, Span.range 0 1⟩ else ⟨false, false, Span.null⟩
  revDFA := some (fun m => ⟨true, false, m⟩)
  searchOnePass := fun _ _ _ _ _ => none
  searchBitState := fun _ _ _ _ _ => none
  searchNFA := fun _ _ _ _ _ => none

/-- The 20 digit bytes of the string `"18446744073709551616"` (the value
`2^64`). -/
def big20 : List Nat :=
  [49, 56, 52, 52, 54, 55, 52, 52, 48, 55, 51, 55, 48, 57, 53, 53, 49, 54, 49, 54]

/-- The 10 digit bytes of the string `"4294967296"` (the value `2^32`). -/
def ten32 : List Nat :=
  [52, 50, 57, 52, 57, 54, 55, 50, 57, 54]

/-- A span reported as a match location by one of `E`'s DFA searches: the
anchored forward DFA or the reverse DFA. -/
def DFASpan (E : Engines) (m : Span) : Prop :=
  (∃ lo hi k w, (E.searchDFA lo hi ProgAnchor.kAnchored k w).found = true
      ∧ m = (E.searchDFA lo hi ProgAnchor.kAnchored k w).m)
    ∨ (∃ f m0, E.revDFA = some f ∧ (f m0).found = true ∧ m = (f m0).m)

/-- A capture vector reported by one of `E`'s capture-aware engines when
asked for `ncap` captures. -/
def EngineCaps (E : Engines) (ncap : Nat) (caps : List Span) : Prop :=
  ∃ lo hi a k, E.searchOnePass lo hi a k ncap = some caps
    ∨ E.searchBitState lo hi a k ncap = some caps
    ∨ E.searchNFA lo hi a k ncap = some caps

/-- The compiled state of a pattern with required literal prefix `"a"`
(for example `a[bc]`), compared byte-for-byte. -/
def rePfxA : RE2 where
  ok := true
  pfx := [97]
  pfxFold := false
  num_captures := 0
  is_one_pass := true
  prog_size := 4
  anchor_start := false
  anchor_end := false
  longest_match := false

/-- The compiled state of a self-anchored one-pass pattern with one
capturing group (for example `^(b)c$`): both anchor flags are set, so every
`Match` call is promoted to `ANCHOR_BOTH`. -/
def reAnch : RE2 where
  ok := true
  pfx := []
  pfxFold := false
  num_captures := 1
  is_one_pass := true
  prog_size := 6
  anchor_start := true
  anchor_end := true
  longest_match := false

/-- An engine bundle whose capture-aware engines report the whole search
window as every capture slot: a concrete oracle instance for exercising
the prefix fix-up. -/
def engWin : Engines where
  maxOnePassCapture := 5
  searchDFA := dfaYes
  revDFA := some (fun m => ⟨true, false, m⟩)
  searchOnePass := fun lo hi _ _ n => some (List.replicate n (Span.range lo hi))
  searchBitState := fun lo hi _ _ n => some (List.replicate n (Span.range lo hi))
  searchNFA := fun lo hi _ _ n => some (List.replicate n (Span.range lo hi))

theorem re2MatchRaw_not_ok (re : RE2) (E : Engines) (text : List Nat) (sp : Nat)
    (anc : Anchor) (buf : List Span) (nsub : Nat) (h : re.ok = false) :
    re2MatchRaw re E text sp anc buf nsub = none := by
  simp [re2MatchRaw, h]

theorem re2Match_not_ok (re : RE2) (E : Engines) (text : List Nat) (sp : Nat)
    (anc : Anchor) (buf : List Span) (nsub : Nat) (h : re.ok = false) :
    re2Match re E text sp anc buf nsub = (false, buf) := by
  simp [re2Match, re2MatchRaw_not_ok re E text sp anc buf nsub h]

/-- C1: for every `RE2` object whose construction failed (`error != ok`),
`Match`, `DoMatch` and hence `FullMatch`, `PartialMatch`, `Consume`,
`FindAndConsume`, `Replace`, `GlobalReplace` and `Extract` all
short-circuit: the matching calls return false, `GlobalReplace` returns 0,
and the caller's output arguments (submatch buffer, consumed count, target
string, output string) are untouched. -/
theorem c1_error_state_short_circuits
    (re : RE2) (E : Engines) (text str rw : List Nat) (sp : Nat) (anc : Anchor)
    (buf : List Span) (nsub : Nat) (wc : Bool) (parsers : List (Span → Bool))
    (h : re.ok = false) :
    re2Match re E text sp anc buf nsub = (false, buf)
    ∧ doMatch re E text anc wc parsers = (false, none)
    ∧ fullMatch re E text parsers = false
    ∧ partMatch re E text parsers = false
    ∧ consume re E text parsers = none
    ∧ findAndConsume re E text parsers = none
    ∧ replace re E str rw = none
    ∧ globalReplace re E str rw = some (0, str)
    ∧ extract re E text rw = none := by
  have hdo : ∀ (a : Anchor) (w : Bool), doMatch re E text a w parsers = (false, none) := by
    intro a w
    simp [doMatch, h]
  have hrep : replace re E str rw = none := by
    unfold replace
    by_cases h17 : 17 < 1 + maxSubmatch rw
    · simp [h17]
    · simp [h17, re2Match_not_ok re E str 0 Anchor.UNANCHORED _ _ h]
  have hglob : globalReplace re E str rw = some (0, str) := by
    unfold globalReplace
    by_cases h17 : 17 < 1 + maxSubmatch rw
    · simp [h17]
    · have hfuel : 2 * str.length + 4 = (2 * str.length + 3) + 1 := rfl
      rw [hfuel]
      simp [h17, grLoop, re2Match_not_ok re E str 0 Anchor.UNANCHORED _ _ h]
  have hext : extract re E text rw = none := by
    unfold extract
    by_cases h17 : 17 < 1 + maxSubmatch rw
    · simp [h17]
    · simp [h17, re2Match_not_ok re E text 0 Anchor.UNANCHORED _ _ h]
  exact ⟨re2Match_not_ok re E text sp anc buf nsub h, hdo anc wc,
    by simp [fullMatch, hdo], by simp [partMatch, hdo],
    by simp [consume, hdo], by simp [findAndConsume, hdo],
    hrep, hglob, hext⟩

/-- Witness for C1 at a concrete failed pattern. -/
theorem c1_error_state_short_circuits_witness :
    reBad.ok = false
    ∧ re2Match reBad engStar [97] 0 Anchor.UNANCHORED [Span.null] 1 = (false, [Span.null])
    ∧ globalReplace reBad engStar [97] [88] = some (0, [97]) := by
  refine ⟨by decide, ?_, ?_⟩
  · exact (c1_error_state_short_circuits reBad engStar [97] [97] [88] 0 Anchor.UNANCHORED
      [Span.null] 1 false [] (by decide)).1
  · exact (c1_error_state_short_circuits reBad engStar [97] [97] [88] 0 Anchor.UNANCHORED
      [Span.null] 1 false [] (by decide)).2.2.2.2.2.2.2.1

/-- C9: `DoMatch` (and hence the variadic extraction entry points) returns
false whenever more extraction arguments are passed than the pattern has
capturing groups, regardless of whether the text matches. -/
theorem c9_excess_args_rejected
    (re : RE2) (E : Engines) (text : List Nat) (anc : Anchor) (wc : Bool)
    (parsers : List (Span → Bool))
    (h : re.num_captures < parsers.length) :
    (doMatch re E text anc wc parsers).1 = false := by
  unfold doMatch
  by_cases hok : re.ok
  · simp only [hok, if_true]
    rcases hM : re2Match re E text 0 anc
        (List.replicate (if parsers.length = 0 ∧ wc = false then 0 else parsers.length + 1)
          Span.null)
        (if parsers.length = 0 ∧ wc = false then 0 else parsers.length + 1) with ⟨b, vec⟩
    cases b
    · simp [hM]
    · have hn : ¬(parsers.length = 0) := by omega
      simp [hM, hn, h]
  · simp [hok]

/-- Witness for C9 at a concrete pattern with no capturing groups and one
extraction argument. -/
theorem c9_excess_args_rejected_witness :
    reStar.num_captures < 1
    ∧ (doMatch reStar engStar [98] Anchor.UNANCHORED false [fun _ => true]).1 = false :=
  ⟨by decide,
    c9_excess_args_rejected reStar engStar [98] Anchor.UNANCHORED false [fun _ => true]
      (by decide)⟩

/-- Counterexample to C10 as stated: an invalid rewrite template does not
force zero substitutions.  With the pattern `a` on the one-byte string
`"a"` and the malformed template `"\z"` (which `CheckRewriteString`
rejects), `GlobalReplace` still performs one substitution — the rewrite
failure is ignored — returns 1 and replaces the string with the partial
(empty) rewrite output. -/
theorem c10_invalid_template_counterexample :
    checkRewriteString 0 [92, 122] = false
    ∧ globalReplace reLitA engLitA [97] [92, 122] = some (1, [])
    ∧ ¬ globalReplace reLitA engLitA [97] [92, 122] = some (0, [97]) := by
  decide

/-- C10 (amended): `GlobalReplace` is atomic with respect to its string
argument whenever it performs zero substitutions (in particular when the
pattern never matches or is in an error state): it returns 0 and leaves
the string byte-for-byte unchanged, and the rewritten output is installed
only after at least one substitution.  (An invalid template does not
guarantee zero substitutions: rewrite failures are ignored inside the
loop.) -/
theorem c10_zero_substitutions_atomic
    (re : RE2) (E : Engines) (str rw : List Nat) (c : Nat) (s2 : List Nat)
    (h : globalReplace re E str rw = some (c, s2)) (hc : c = 0) :
    s2 = str := by
  subst hc
  unfold globalReplace at h
  by_cases h17 : 17 < 1 + maxSubmatch rw
  · simp [h17] at h
    exact h.symm
  · simp only [h17, if_false, if_neg] at h
    rcases hg : grLoop re E str rw (1 + maxSubmatch rw) (2 * str.length + 4) 0 none [] 0 with
      _ | ⟨count, p, out⟩
    · rw [hg] at h
      simp at h
    · rw [hg] at h
      by_cases hcz : count = 0
      · simp [hcz] at h
        exact h.symm
      · simp [hcz] at h

/-- Witness for C10's amended theorem: a pattern that never matches the
text leaves the string unchanged. -/
theorem c10_zero_substitutions_atomic_witness :
    globalReplace reLitA (allYesE 5 dfaNo) [97] [88] = some (0, [97])
    ∧ ([97] : List Nat) = [97] := by
  have h : globalReplace reLitA (allYesE 5 dfaNo) [97] [88] = some (0, [97]) := by decide
  exact ⟨h, c10_zero_substitutions_atomic reLitA (allYesE 5 dfaNo) [97] [88] 0 [97] h rfl⟩

/-- C5: `GlobalReplace` never loops on empty matches — when a match is
empty and begins where the previous substitution ended, the loop copies
the next input byte verbatim and advances the cursor by one instead of
substituting; and concretely, pattern `a*` on text `"bbb"` with rewrite
template `"X"` produces `"XbXbXbX"` with substitution count 4. -/
theorem c5_global_replace_empty_match
    (re : RE2) (E : Engines) (str rw : List Nat) (nvec fuel p count : Nat)
    (out : List Nat) (vec : List Span)
    (hm : re2Match re E str p Anchor.UNANCHORED (List.replicate nvec Span.null) nvec
      = (true, vec))
    (hb : spanBeginP (vec.getD 0 Span.null) = some p)
    (hsz : (vec.getD 0 Span.null).size = 0)
    (hp : p < str.length) :
    grLoop re E str rw nvec (fuel + 1) p (some p) out count
      = grLoop re E str rw nvec fuel (p + 1) (some p) (out ++ [str.getD p 0]) count
    ∧ globalReplace reStar engStar [98, 98, 98] [88]
      = some (4, [88, 98, 88, 98, 88, 98, 88]) := by
  constructor
  · have hnp : ¬(str.length < p) := by omega
    simp only [grLoop, hnp, if_false, if_neg, hm, hb, hsz]
    simp [hp]
  · decide

/-- Witness for C5 in the middle of the concrete `a*` on `"bbb"` run: at
cursor 1, right after the substitution that ended at 1, the empty match at
1 makes the loop copy the byte `b` and advance to 2. -/
theorem c5_global_replace_empty_match_witness :
    re2Match reStar engStar [98, 98, 98] 1 Anchor.UNANCHORED [Span.null] 1
      = (true, [Span.range 1 1])
    ∧ grLoop reStar engStar [98, 98, 98] [88] 1 4 1 (some 1) [88, 98, 88] 2
      = grLoop reStar engStar [98, 98, 98] [88] 1 3 2 (some 1) [88, 98, 88, 98] 2 := by
  refine ⟨by decide, ?_⟩
  exact (c5_global_replace_empty_match reStar engStar [98, 98, 98] [88] 1 3 1 2 [88, 98, 88]
    [Span.range 1 1] (by decide) (by decide) (by decide) (by decide)).1

/-- C7: `QuoteMeta` emits each ASCII alphanumeric byte, underscore and
high-bit byte unchanged, the NUL byte as the four bytes `\x00`, and every
other byte preceded by a single backslash; concretely, on the 5-byte input
`"a.b\0c"` it yields the bytes of `a\.b\x00c`. -/
theorem c7_quote_meta :
    (∀ l : List Nat, quoteMeta l = l.flatMap qmByteSpec)
    ∧ quoteMeta [97, 46, 98, 0, 99] = [97, 92, 46, 98, 92, 120, 48, 48, 99] := by
  constructor
  · intro l
    induction l with
    | nil => rfl
    | cons c rest ih =>
      simp only [List.flatMap_cons, ← ih]
      by_cases hS : (97 ≤ c ∧ c ≤ 122) ∨ (65 ≤ c ∧ c ≤ 90) ∨ (48 ≤ c ∧ c ≤ 57) ∨ c = 95
          ∨ 128 ≤ c
      · have hC : ¬((c < 97 ∨ 122 < c) ∧ (c < 65 ∨ 90 < c) ∧ (c < 48 ∨ 57 < c) ∧ c ≠ 95
            ∧ c < 128) := by omega
        simp [quoteMeta, qmByteSpec, hC, hS]
      · have hC : (c < 97 ∨ 122 < c) ∧ (c < 65 ∨ 90 < c) ∧ (c < 48 ∨ 57 < c) ∧ c ≠ 95
            ∧ c < 128 := by omega
        by_cases h0 : c = 0
        · subst h0
          simp [quoteMeta, qmByteSpec]
        · simp [quoteMeta, qmByteSpec, hC, hS, h0]
          have hS2 : ¬(97 ≤ c ∧ c ≤ 122 ∨ 65 ≤ c ∧ c ≤ 90 ∨ 48 ≤ c ∧ c ≤ 57 ∨ 128 ≤ c) := by
            omega
          simp [hS2]
  · decide

/-- C8: the numeric argument parsers fail on overflow or out-of-range
input rather than storing a truncated value: each width-narrowing parser
parses through the long/unsigned-long routine and then fails when the
value does not fit the narrower type (and on success it stores exactly the
wide value); in particular `parse_uint` on the 20-byte string
`"18446744073709551616"` (the value `2^64`) fails on a 32-bit target,
already at the unsigned-long stage. -/
theorem c8_numeric_parsers_reject_overflow :
    (∀ W s nx r, parse_ulong W s nx = some r → 2 ^ 32 ≤ r → parse_uint W s nx = none)
    ∧ (∀ W s nx v, parse_uint W s nx = some v → parse_ulong W s nx = some v ∧ v < 2 ^ 32)
    ∧ (∀ W s nx r, parse_ulong W s nx = some r → 2 ^ 16 ≤ r → parse_ushort W s nx = none)
    ∧ (∀ W s nx r, parse_long W s nx = some r → (r < -(2 ^ 31) ∨ (2 ^ 31 : Int) ≤ r) →
        parse_int W s nx = none)
    ∧ (∀ W s nx r, parse_long W s nx = some r → (r < -(2 ^ 15) ∨ (2 ^ 15 : Int) ≤ r) →
        parse_short W s nx = none)
    ∧ (∀ nx, parse_ulong 32 big20 nx = none ∧ parse_uint 32 big20 nx = none) := by
  refine ⟨?_, ?_, ?_, ?_, ?_, ?_⟩
  · intro W s nx r h hge
    simp only [parse_uint, h]
    rw [if_pos hge]
  · intro W s nx v h
    unfold parse_uint at h
    rcases hu : parse_ulong W s nx with _ | r
    · rw [hu] at h
      simp at h
    · rw [hu] at h
      dsimp only at h
      by_cases hge : 2 ^ 32 ≤ r
      · rw [if_pos hge] at h
        exact absurd h (by simp)
      · rw [if_neg hge] at h
        have hv : r = v := by
          injection h
        subst hv
        exact ⟨rfl, lt_of_not_le hge⟩
  · intro W s nx r h hge
    simp only [parse_ushort, h]
    rw [if_pos hge]
  · intro W s nx r h hr
    simp only [parse_int, h]
    rw [if_pos hr]
  · intro W s nx r h hr
    simp only [parse_short, h]
    rw [if_pos hr]
  · intro nx
    have hterm : terminateOk big20 nx = true := by
      simp [terminateOk, big20, isspaceB, numberish]
    have hu : parse_ulong 32 big20 nx = none := by
      simp +decide [parse_ulong, hterm]
    exact ⟨hu, by simp [parse_uint, hu]⟩

/-- Witness for C8: the 10-byte string `"4294967296"` (the value `2^32`)
parses as an unsigned long on a 64-bit target but is rejected by
`parse_uint` because it does not fit 32 bits. -/
theorem c8_numeric_parsers_reject_overflow_witness :
    parse_ulong 64 ten32 0 = some 4294967296
    ∧ parse_uint 64 ten32 0 = none :=
  ⟨by decide,
    c8_numeric_parsers_reject_overflow.1 64 ten32 0 4294967296 (by decide) (by decide)⟩

theorem checkLoop_bs_bs (rest : List Nat) (m : Int) :
    checkLoop (92 :: 92 :: rest) m = checkLoop rest m := by
  simp [checkLoop]

theorem checkLoop_bs_digit (c : Nat) (rest : List Nat) (m : Int)
    (h92 : ¬c = 92) (hd : isdigitB c = true) :
    checkLoop (92 :: c :: rest) m = checkLoop rest (max m ((c : Int) - 48)) := by
  simp [checkLoop, h92, hd]

theorem checkLoop_bs_other (c : Nat) (rest : List Nat) (m : Int)
    (h92 : ¬c = 92) (hd : isdigitB c = false) :
    checkLoop (92 :: c :: rest) m = none := by
  simp [checkLoop, h92, hd]

theorem checkLoop_lit (c : Nat) (rest : List Nat) (m : Int) (h92 : ¬c = 92) :
    checkLoop (c :: rest) m = checkLoop rest m := by
  rcases rest with _ | ⟨c2, rest2⟩ <;> simp [checkLoop, h92]

theorem rewriteOk_bs_bs (v : Nat) (rest : List Nat) :
    rewriteOk v (92 :: 92 :: rest) = rewriteOk v rest := by
  simp +decide [rewriteOk]

theorem rewriteOk_bs_digit (v c : Nat) (rest : List Nat) (hd : isdigitB c = true) :
    rewriteOk v (92 :: c :: rest) = if v ≤ c - 48 then false else rewriteOk v rest := by
  simp [rewriteOk, hd]

theorem rewriteOk_bs_other (v c : Nat) (rest : List Nat)
    (h92 : ¬c = 92) (hd : isdigitB c = false) :
    rewriteOk v (92 :: c :: rest) = false := by
  simp [rewriteOk, h92, hd]

theorem rewriteOk_lit (v c : Nat) (rest : List Nat) (h92 : ¬c = 92) :
    rewriteOk v (c :: rest) = rewriteOk v rest := by
  rcases rest with _ | ⟨c2, rest2⟩ <;> simp [rewriteOk, h92]

theorem rewriteRun_bs_bs (str : List Nat) (vec : List Span) (rest : List Nat) :
    rewriteRun str vec (92 :: 92 :: rest) =
      ((rewriteRun str vec rest).1, 92 :: (rewriteRun str vec rest).2) := by
  simp +decide [rewriteRun]

theorem rewriteRun_bs_digit (str : List Nat) (vec : List Span) (c : Nat) (rest : List Nat)
    (hd : isdigitB c = true) :
    rewriteRun str vec (92 :: c :: rest) =
      if vec.length ≤ c - 48 then (false, [])
      else ((rewriteRun str vec rest).1,
        snipBytes str (vec.getD (c - 48) Span.null) ++ (rewriteRun str vec rest).2) := by
  simp [rewriteRun, hd]

theorem rewriteRun_bs_other (str : List Nat) (vec : List Span) (c : Nat) (rest : List Nat)
    (h92 : ¬c = 92) (hd : isdigitB c = false) :
    rewriteRun str vec (92 :: c :: rest) = (false, []) := by
  simp [rewriteRun, h92, hd]

theorem rewriteRun_lit (str : List Nat) (vec : List Span) (c : Nat) (rest : List Nat)
    (h92 : ¬c = 92) :
    rewriteRun str vec (c :: rest) =
      ((rewriteRun str vec rest).1, c :: (rewriteRun str vec rest).2) := by
  rcases rest with _ | ⟨c2, rest2⟩ <;> simp [rewriteRun, h92]

theorem rewriteRun_fst (str : List Nat) (vec : List Span) :
    ∀ t : List Nat, (rewriteRun str vec t).1 = rewriteOk vec.length t
  | [] => rfl
  | 92 :: [] => rfl
  | 92 :: c :: rest => by
    by_cases h92 : c = 92
    · subst h92
      rw [rewriteRun_bs_bs, rewriteOk_bs_bs, rewriteRun_fst str vec rest]
    · by_cases hd : isdigitB c
      · rw [rewriteRun_bs_digit str vec c rest hd, rewriteOk_bs_digit vec.length c rest hd]
        by_cases hle : vec.length ≤ c - 48
        · simp [hle]
        · simp [hle, rewriteRun_fst str vec rest]
      · rw [rewriteRun_bs_other str vec c rest h92 (by simpa using hd),
          rewriteOk_bs_other vec.length c rest h92 (by simpa using hd)]
  | c :: rest => by
    by_cases h92 : c = 92
    · subst h92
      cases rest with
      | nil => rfl
      | cons c2 rest2 =>
        by_cases h922 : c2 = 92
        · subst h922
          rw [rewriteRun_bs_bs, rewriteOk_bs_bs, rewriteRun_fst str vec rest2]
        · by_cases hd : isdigitB c2
          · rw [rewriteRun_bs_digit str vec c2 rest2 hd,
              rewriteOk_bs_digit vec.length c2 rest2 hd]
            by_cases hle : vec.length ≤ c2 - 48
            · simp [hle]
            · simp [hle, rewriteRun_fst str vec rest2]
          · rw [rewriteRun_bs_other str vec c2 rest2 h922 (by simpa using hd),
              rewriteOk_bs_other vec.length c2 rest2 h922 (by simpa using hd)]
    · rw [rewriteRun_lit str vec c rest h92, rewriteOk_lit vec.length c rest h92]
      exact rewriteRun_fst str vec rest

theorem checkLoop_mono : ∀ (t : List Nat) (m m' : Int), checkLoop t m = some m' → m ≤ m'
  | [], m, m' => by
    intro h
    simp [checkLoop] at h
    omega
  | 92 :: [], m, m' => by
    intro h
    simp [checkLoop] at h
  | 92 :: c :: rest, m, m' => by
    intro h
    by_cases h92 : c = 92
    · subst h92
      rw [checkLoop_bs_bs] at h
      exact checkLoop_mono rest m m' h
    · by_cases hd : isdigitB c
      · rw [checkLoop_bs_digit c rest m h92 hd] at h
        have := checkLoop_mono rest (max m ((c : Int) - 48)) m' h
        omega
      · rw [checkLoop_bs_other c rest m h92 (by simpa using hd)] at h
        exact absurd h (by simp)
  | c :: rest, m, m' => by
    intro h
    by_cases h92 : c = 92
    · subst h92
      cases rest with
      | nil => exact absurd h (by simp [checkLoop])
      | cons c2 rest2 =>
        by_cases h922 : c2 = 92
        · subst h922
          rw [checkLoop_bs_bs] at h
          exact checkLoop_mono rest2 m m' h
        · by_cases hd : isdigitB c2
          · rw [checkLoop_bs_digit c2 rest2 m h922 hd] at h
            have := checkLoop_mono rest2 (max m ((c2 : Int) - 48)) m' h
            omega
          · rw [checkLoop_bs_other c2 rest2 m h922 (by simpa using hd)] at h
            exact absurd h (by simp)
    · rw [checkLoop_lit c rest m h92] at h
      exact checkLoop_mono rest m m' h

theorem checkLoop_iff_rewriteOk :
    ∀ (t : List Nat) (ncap : Nat) (m : Int), m ≤ (ncap : Int) →
      ((∃ m', checkLoop t m = some m' ∧ m' ≤ (ncap : Int)) ↔ rewriteOk (ncap + 1) t = true)
  | [], ncap, m => by
    intro hm
    simp [checkLoop, rewriteOk, hm]
  | 92 :: [], ncap, m => by
    intro hm
    simp [checkLoop, rewriteOk]
  | 92 :: c :: rest, ncap, m => by
    intro hm
    by_cases h92 : c = 92
    · subst h92
      rw [checkLoop_bs_bs, rewriteOk_bs_bs]
      exact checkLoop_iff_rewriteOk rest ncap m hm
    · by_cases hd : isdigitB c
      · have hc48 : ((c : Int) - 48) = ((c - 48 : Nat) : Int) := by
          simp [isdigitB] at hd
          omega
        rw [checkLoop_bs_digit c rest m h92 hd, rewriteOk_bs_digit (ncap + 1) c rest hd]
        by_cases hle : ncap + 1 ≤ c - 48
        · have hgt : (ncap : Int) < (c : Int) - 48 := by
            rw [hc48]
            exact_mod_cast by omega
          rw [if_pos hle]
          constructor
          · rintro ⟨m', hsome, hle'⟩
            have := checkLoop_mono rest (max m ((c : Int) - 48)) m' hsome
            omega
          · intro h
            exact absurd h (by simp)
        · have hle2 : max m ((c : Int) - 48) ≤ (ncap : Int) := by
            rw [hc48]
            have h1 : ((c - 48 : Nat) : Int) ≤ (ncap : Int) := by exact_mod_cast by omega
            omega
          rw [if_neg hle]
          exact checkLoop_iff_rewriteOk rest ncap (max m ((c : Int) - 48)) hle2
      · rw [checkLoop_bs_other c rest m h92 (by simpa using hd),
          rewriteOk_bs_other (ncap + 1) c rest h92 (by simpa using hd)]
        simp
  | c :: rest, ncap, m => by
    intro hm
    by_cases h92 : c = 92
    · subst h92
      cases rest with
      | nil => simp [checkLoop, rewriteOk]
      | cons c2 rest2 =>
        by_cases h922 : c2 = 92
        · subst h922
          rw [checkLoop_bs_bs, rewriteOk_bs_bs]
          exact checkLoop_iff_rewriteOk rest2 ncap m hm
        · by_cases hd : isdigitB c2
          · have hc48 : ((c2 : Int) - 48) = ((c2 - 48 : Nat) : Int) := by
              simp [isdigitB] at hd
              omega
            rw [checkLoop_bs_digit c2 rest2 m h922 hd, rewriteOk_bs_digit (ncap + 1) c2 rest2 hd]
            by_cases hle : ncap + 1 ≤ c2 - 48
            · have hgt : (ncap : Int) < (c2 : Int) - 48 := by
                rw [hc48]
                exact_mod_cast by omega
              rw [if_pos hle]
              constructor
              · rintro ⟨m', hsome, hle'⟩
                have := checkLoop_mono rest2 (max m ((c2 : Int) - 48)) m' hsome
                omega
              · intro h
                exact absurd h (by simp)
            · have hle2 : max m ((c2 : Int) - 48) ≤ (ncap : Int) := by
                rw [hc48]
                have h1 : ((c2 - 48 : Nat) : Int) ≤ (ncap : Int) := by exact_mod_cast by omega
                omega
              rw [if_neg hle]
              exact checkLoop_iff_rewriteOk rest2 ncap (max m ((c2 : Int) - 48)) hle2
          · rw [checkLoop_bs_other c2 rest2 m h922 (by simpa using hd),
              rewriteOk_bs_other (ncap + 1) c2 rest2 h922 (by simpa using hd)]
            simp
    · rw [checkLoop_lit c rest m h92, rewriteOk_lit (ncap + 1) c rest h92]
      exact checkLoop_iff_rewriteOk rest ncap m hm

/-- C6: for a valid pattern with `ncap` capturing groups,
`CheckRewriteString` accepts a template exactly when every `Rewrite` call
with that template and a correctly sized capture vector (length
`1 + ncap`) succeeds; and both reject a trailing backslash, a backslash
followed by a non-digit non-backslash byte, and a capture reference whose
index exceeds the group count. -/
theorem c6_check_rewrite_equiv (ncap : Nat) (t : List Nat) :
    (checkRewriteString ncap t = true ↔
      ∀ (str : List Nat) (vec : List Span), vec.length = ncap + 1 →
        (rewriteRun str vec t).1 = true)
    ∧ checkRewriteString ncap [92] = false
    ∧ rewriteOk (ncap + 1) [92] = false
    ∧ (∀ c, isdigitB c = false → ¬c = 92 →
        checkRewriteString ncap [92, c] = false ∧ rewriteOk (ncap + 1) [92, c] = false)
    ∧ (∀ d, isdigitB d = true → ncap + 1 ≤ d - 48 →
        checkRewriteString ncap [92, d] = false ∧ rewriteOk (ncap + 1) [92, d] = false) := by
  have hneg : (-1 : Int) ≤ (ncap : Int) := by omega
  have hmain : checkRewriteString ncap t = true ↔ rewriteOk (ncap + 1) t = true := by
    unfold checkRewriteString
    rcases hc : checkLoop t (-1) with _ | mtok
    · constructor
      · intro h
        exact absurd h (by simp)
      · intro h
        rcases (checkLoop_iff_rewriteOk t ncap (-1) hneg).2 h with ⟨m', hsome, _⟩
        rw [hc] at hsome
        exact absurd hsome (by simp)
    · simp only [decide_eq_true_eq]
      constructor
      · intro h
        exact (checkLoop_iff_rewriteOk t ncap (-1) hneg).1 ⟨mtok, hc, h⟩
      · intro h
        rcases (checkLoop_iff_rewriteOk t ncap (-1) hneg).2 h with ⟨m', hsome, hle⟩
        rw [hc] at hsome
        injection hsome with he
        rw [he]
        exact hle
  refine ⟨?_, by simp [checkRewriteString, checkLoop], rfl, ?_, ?_⟩
  · rw [hmain]
    constructor
    · intro h str vec hlen
      rw [rewriteRun_fst, hlen]
      exact h
    · intro h
      have h2 := h [] (List.replicate (ncap + 1) Span.null) (by simp)
      rwa [rewriteRun_fst, List.length_replicate] at h2
  · intro c hd h92
    refine ⟨?_, rewriteOk_bs_other (ncap + 1) c [] h92 hd⟩
    simp [checkRewriteString, checkLoop_bs_other c [] (-1) h92 hd]
  · intro d hd hle
    have h92 : ¬d = 92 := by
      simp [isdigitB] at hd
      omega
    constructor
    · have hgt : ¬(max (-1 : Int) ((d : Int) - 48) ≤ (ncap : Int)) := by
        simp [isdigitB] at hd
        have : ((ncap : Int) + 1) ≤ (d : Int) - 48 := by
          omega
        omega
      unfold checkRewriteString
      rw [checkLoop_bs_digit d [] (-1) h92 hd]
      simp only [checkLoop]
      simp [hgt]
    · rw [rewriteOk_bs_digit (ncap + 1) d [] hd, if_pos hle]

/-- Witness for C6: the template `X\1` is accepted for one capturing group
and the corresponding `Rewrite` succeeds, while `\5` is rejected for a
pattern with no groups. -/
theorem c6_check_rewrite_equiv_witness :
    checkRewriteString 1 [88, 92, 49] = true
    ∧ (rewriteRun [97] [Span.range 0 1, Span.range 0 1] [88, 92, 49]).1 = true
    ∧ checkRewriteString 0 [92, 53] = false
    ∧ rewriteOk 1 [92, 53] = false := by
  refine ⟨by decide, ?_, ?_, ?_⟩
  · exact ((c6_check_rewrite_equiv 1 [88, 92, 49]).1.mp (by decide))
      [97] [Span.range 0 1, Span.range 0 1] (by decide)
  · exact ((c6_check_rewrite_equiv 0 [92, 53]).2.2.2.2 53 (by decide) (by decide)).1
  · exact ((c6_check_rewrite_equiv 0 [92, 53]).2.2.2.2 53 (by decide) (by decide)).2

theorem widenLeft_zero (s : Span) : widenLeft 0 s = s := by
  cases s <;> simp [widenLeft]

theorem zeroFromAux_getElem? (ncap nsub : Nat) :
    ∀ (b : List Span) (i j : Nat),
      (zeroFromAux ncap nsub i b)[j]? =
        (b[j]?).map (fun s => if ncap ≤ i + j ∧ i + j < nsub then Span.null else s)
  | [], i, j => by simp [zeroFromAux]
  | s :: rest, i, 0 => by simp [zeroFromAux]
  | s :: rest, i, j + 1 => by
    have h : i + 1 + j = i + (j + 1) := by omega
    simp only [zeroFromAux, List.getElem?_cons_succ,
      zeroFromAux_getElem? ncap nsub rest (i + 1) j, h]

theorem writeCapsAux_getElem? (ncap : Nat) (caps : List Span) :
    ∀ (b : List Span) (i j : Nat),
      (writeCapsAux ncap caps i b)[j]? =
        (b[j]?).map (fun s => if i + j < ncap then caps.getD (i + j) Span.null else s)
  | [], i, j => by simp [writeCapsAux]
  | s :: rest, i, 0 => by simp [writeCapsAux]
  | s :: rest, i, j + 1 => by
    have h : i + 1 + j = i + (j + 1) := by omega
    simp only [writeCapsAux, List.getElem?_cons_succ,
      writeCapsAux_getElem? ncap caps rest (i + 1) j, h]

theorem zeroFrom_getD_null (ncap nsub j : Nat) (b : List Span)
    (h1 : ncap ≤ j) (h2 : j < nsub) :
    (zeroFrom ncap nsub b).getD j Span.null = Span.null := by
  rw [List.getD_eq_getElem?_getD, zeroFrom, zeroFromAux_getElem?]
  rcases hb : b[j]? with _ | s
  · rfl
  · simp [h1, h2]

theorem zeroFrom_getD_lt (ncap nsub j : Nat) (b : List Span) (d : Span) (h : j < ncap) :
    (zeroFrom ncap nsub b).getD j d = b.getD j d := by
  have hcond : ¬(ncap ≤ j ∧ j < nsub) := by omega
  rw [List.getD_eq_getElem?_getD, List.getD_eq_getElem?_getD, zeroFrom, zeroFromAux_getElem?]
  rcases hb : b[j]? with _ | s
  · rfl
  · simp [hcond]

theorem writeCaps_getD_lt (ncap j : Nat) (caps b : List Span) (d : Span)
    (h : j < ncap) (hlen : j < b.length) :
    (writeCaps ncap caps b).getD j d = caps.getD j Span.null := by
  rw [List.getD_eq_getElem?_getD, writeCaps, writeCapsAux_getElem?]
  rcases hb : b[j]? with _ | s
  · rw [List.getElem?_eq_none_iff] at hb
    omega
  · simp [h]

theorem pfxFixup_getD_zero (plen nsub : Nat) (b : List Span)
    (hn : 0 < nsub) (hb : b ≠ []) :
    (pfxFixup plen nsub b).getD 0 Span.null = widenLeft plen (b.getD 0 Span.null) := by
  unfold pfxFixup
  by_cases hp : 0 < plen
  · rw [if_pos ⟨hp, hn⟩]
    rcases b with _ | ⟨s, rest⟩
    · exact absurd rfl hb
    · simp [List.set]
  · have hz : plen = 0 := by omega
    subst hz
    rw [if_neg (by omega), widenLeft_zero]

theorem pfxFixup_getD_succ (plen nsub k : Nat) (b : List Span) (d : Span) (hk : 1 ≤ k) :
    (pfxFixup plen nsub b).getD k d = b.getD k d := by
  unfold pfxFixup
  by_cases hc : 0 < plen ∧ 0 < nsub
  · rw [if_pos hc, List.getD_eq_getElem?_getD, List.getD_eq_getElem?_getD,
      List.getElem?_set_ne (by omega)]
    rw [List.getD_eq_getElem?_getD]
  · rw [if_neg hc]

theorem zeroFromAux_length (ncap nsub : Nat) :
    ∀ (b : List Span) (i : Nat), (zeroFromAux ncap nsub i b).length = b.length
  | [], _ => rfl
  | s :: rest, i => by
    simp [zeroFromAux, zeroFromAux_length ncap nsub rest (i + 1)]

theorem writeCapsAux_length (ncap : Nat) (caps : List Span) :
    ∀ (b : List Span) (i : Nat), (writeCapsAux ncap caps i b).length = b.length
  | [], _ => rfl
  | s :: rest, i => by
    simp [writeCapsAux, writeCapsAux_length ncap caps rest (i + 1)]

theorem pfxMatches_of_isEmpty (re : RE2) (text : List Nat) (sp : Nat)
    (h : re.pfx.isEmpty = true) :
    pfxMatches re text sp = true := by
  rw [List.isEmpty_iff] at h
  cases hf : re.pfxFold <;> simp [pfxMatches, h, hf]

theorem re2Match_eq_of_raw (re : RE2) (E : Engines) (text : List Nat) (sp : Nat)
    (anc : Anchor) (buf : List Span) (nsub : Nat) (rb : List Span)
    (h : re2MatchRaw re E text sp anc buf nsub = some rb) :
    re2Match re E text sp anc buf nsub =
      (true, zeroFrom (ncapOf re nsub) nsub (pfxFixup re.pfx.length nsub rb)) := by
  simp [re2Match, h]

theorem re2Match_true_raw (re : RE2) (E : Engines) (text : List Nat) (sp : Nat)
    (anc : Anchor) (buf : List Span) (nsub : Nat) (out : List Span)
    (h : re2Match re E text sp anc buf nsub = (true, out)) :
    ∃ rb, re2MatchRaw re E text sp anc buf nsub = some rb
      ∧ out = zeroFrom (ncapOf re nsub) nsub (pfxFixup re.pfx.length nsub rb) := by
  unfold re2Match at h
  rcases hr : re2MatchRaw re E text sp anc buf nsub with _ | rb
  · rw [hr] at h
    simp at h
  · rw [hr] at h
    simp at h
    exact ⟨rb, rfl, h.symm⟩

theorem dispatch_located_dfaSpan (re : RE2) (E : Engines) (lo textLen : Nat) (anc : Anchor)
    (w : Bool) (ncap : Nat) (m : Span)
    (h : dispatch re E lo textLen anc w ncap = DispatchOut.located m) :
    DFASpan E m := by
  rcases anc with _ | _ | _
  · rcases hE : E.searchDFA lo textLen ProgAnchor.kUnanchored (kind0 re) w with ⟨found, failed, mm⟩
    simp only [dispatch, hE] at h
    rcases found with _ | _
    · rcases failed with _ | _ <;> simp at h
    · rcases w with _ | _
      · simp at h
      · rw [if_pos rfl] at h
        rcases hrev : E.revDFA with _ | f
        · rw [hrev] at h
          simp at h
        · rw [hrev] at h
          rcases hr2 : f mm with ⟨found2, failed2, m2⟩
          simp only [hr2] at h
          rcases found2 with _ | _
          · rcases failed2 with _ | _ <;> simp at h
          · simp only [if_true, DispatchOut.located.injEq] at h
            refine Or.inr ⟨f, mm, hrev, ?_, ?_⟩
            · rw [hr2]
            · rw [hr2, ← h]
  · simp only [dispatch] at h
    split at h
    · simp at h
    · split at h
      · simp at h
      · rcases hE : E.searchDFA lo textLen ProgAnchor.kAnchored
            (if Anchor.ANCHOR_START = Anchor.ANCHOR_BOTH then MatchKind.kFullMatch else kind0 re)
            true with ⟨found, failed, mm⟩
        rw [hE] at h
        rcases found with _ | _
        · rcases failed with _ | _ <;> simp at h
        · simp only [if_true, DispatchOut.located.injEq] at h
          refine Or.inl ⟨lo, textLen,
            (if Anchor.ANCHOR_START = Anchor.ANCHOR_BOTH then MatchKind.kFullMatch
              else kind0 re), true, ?_, ?_⟩
          · rw [hE]
          · rw [hE, ← h]
  · simp only [dispatch] at h
    split at h
    · simp at h
    · split at h
      · simp at h
      · simp only [if_true] at h
        rcases hE : E.searchDFA lo textLen ProgAnchor.kAnchored MatchKind.kFullMatch true with
          ⟨found, failed, mm⟩
        rw [hE] at h
        rcases found with _ | _
        · rcases failed with _ | _ <;> simp at h
        · simp only [if_true, DispatchOut.located.injEq] at h
          refine Or.inl ⟨lo, textLen, MatchKind.kFullMatch, true, ?_, ?_⟩
          · rw [hE]
          · rw [hE, ← h]

theorem dispatch_earlyTrue_wantMatch (re : RE2) (E : Engines) (lo textLen : Nat)
    (anc : Anchor) (w : Bool) (ncap : Nat)
    (h : dispatch re E lo textLen anc w ncap = DispatchOut.earlyTrue) :
    w = false := by
  rcases w with _ | _
  · rfl
  · exfalso
    rcases anc with _ | _ | _
    · rcases hE : E.searchDFA lo textLen ProgAnchor.kUnanchored (kind0 re) true with
        ⟨found, failed, mm⟩
      simp only [dispatch, hE] at h
      rcases found with _ | _
      · rcases failed with _ | _ <;> simp at h
      · simp only [if_true] at h
        rcases hrev : E.revDFA with _ | f
        · rw [hrev] at h
          simp at h
        · rw [hrev] at h
          rcases hr2 : f mm with ⟨found2, failed2, m2⟩
          simp only [hr2] at h
          rcases found2 with _ | _
          · rcases failed2 with _ | _ <;> simp at h
          · simp at h
    · simp only [dispatch] at h
      split at h
      · simp at h
      · split at h
        · simp at h
        · rcases hE : E.searchDFA lo textLen ProgAnchor.kAnchored
              (if Anchor.ANCHOR_START = Anchor.ANCHOR_BOTH then MatchKind.kFullMatch
                else kind0 re) true with ⟨found, failed, mm⟩
          rw [hE] at h
          rcases found with _ | _
          · rcases failed with _ | _ <;> simp at h
          · simp at h
    · simp only [dispatch] at h
      split at h
      · simp at h
      · split at h
        · simp at h
        · simp only [if_true] at h
          rcases hE : E.searchDFA lo textLen ProgAnchor.kAnchored MatchKind.kFullMatch true with
            ⟨found, failed, mm⟩
          rw [hE] at h
          rcases found with _ | _
          · rcases failed with _ | _ <;> simp at h
          · simp at h

theorem ladder_some_caps (re : RE2) (E : Engines) (lo hi : Nat) (a : ProgAnchor)
    (k : MatchKind) (ncap : Nat) (buf rb : List Span)
    (h : ladder re E lo hi a k ncap buf = some rb) :
    ∃ caps, EngineCaps E ncap caps ∧ rb = writeCaps ncap caps buf := by
  unfold ladder at h
  split at h
  · rcases ho : E.searchOnePass lo hi a k ncap with _ | caps
    · rw [ho] at h
      simp at h
    · rw [ho] at h
      simp at h
      exact ⟨caps, ⟨lo, hi, a, k, Or.inl ho⟩, h.symm⟩
  · split at h
    · rcases ho : E.searchBitState lo hi a k ncap with _ | caps
      · rw [ho] at h
        simp at h
      · rw [ho] at h
        simp at h
        exact ⟨caps, ⟨lo, hi, a, k, Or.inr (Or.inl ho)⟩, h.symm⟩
    · rcases ho : E.searchNFA lo hi a k ncap with _ | caps
      · rw [ho] at h
        simp at h
      · rw [ho] at h
        simp at h
        exact ⟨caps, ⟨lo, hi, a, k, Or.inr (Or.inr ho)⟩, h.symm⟩

theorem afterDispatch_some_cases (re : RE2) (E : Engines) (lo textLen ncap : Nat)
    (buf rb : List Span) (d : DispatchOut)
    (h : afterDispatch re E lo textLen ncap buf d = some rb) :
    (d = DispatchOut.earlyTrue ∧ rb = buf)
    ∨ (∃ m, d = DispatchOut.located m ∧ ncap ≤ 1
        ∧ rb = (if ncap = 1 then buf.set 0 m else buf))
    ∨ (∃ caps, EngineCaps E ncap caps ∧ rb = writeCaps ncap caps buf) := by
  rcases d with _ | _ | m | ⟨a, k⟩
  · simp [afterDispatch] at h
  · simp [afterDispatch] at h
    exact Or.inl ⟨rfl, h.symm⟩
  · simp only [afterDispatch] at h
    by_cases hle : ncap ≤ 1
    · rw [if_pos hle] at h
      simp at h
      exact Or.inr (Or.inl ⟨m, rfl, hle, h.symm⟩)
    · rw [if_neg hle] at h
      exact Or.inr (Or.inr (ladder_some_caps re E (spanLo m) (spanHi m) ProgAnchor.kAnchored
        MatchKind.kFullMatch ncap buf rb h))
  · simp only [afterDispatch] at h
    exact Or.inr (Or.inr (ladder_some_caps re E lo textLen a k ncap buf rb h))

theorem re2MatchRaw_success_cases (re : RE2) (E : Engines) (text : List Nat) (sp : Nat)
    (anc : Anchor) (buf : List Span) (nsub : Nat) (rb : List Span)
    (h : re2MatchRaw re E text sp anc buf nsub = some rb) :
    (nsub = 0 ∧ rb = buf)
    ∨ (∃ m, DFASpan E m ∧ ncapOf re nsub ≤ 1
        ∧ rb = (if ncapOf re nsub = 1 then buf.set 0 m else buf))
    ∨ (∃ caps, EngineCaps E (ncapOf re nsub) caps ∧ rb = writeCaps (ncapOf re nsub) caps buf) := by
  unfold re2MatchRaw at h
  by_cases hok : re.ok
  · rw [if_pos hok] at h
    by_cases hpe : re.pfx.isEmpty
    · rw [if_pos hpe] at h
      rcases afterDispatch_some_cases re E sp text.length (ncapOf re nsub) buf rb _ h with
        ⟨hd, hrb⟩ | ⟨m, hd, hle, hrb⟩ | hcaps
      · left
        refine ⟨?_, hrb⟩
        have := dispatch_earlyTrue_wantMatch re E sp text.length (promoteAnchor re anc)
          (!(nsub = 0)) (ncapOf re nsub) hd
        simpa using this
      · exact Or.inr (Or.inl ⟨m,
          dispatch_located_dfaSpan re E sp text.length (promoteAnchor re anc)
            (!(nsub = 0)) (ncapOf re nsub) m hd, hle, hrb⟩)
      · exact Or.inr (Or.inr hcaps)
    · rw [if_neg hpe] at h
      by_cases hpm : pfxMatches re text sp
      · rw [if_pos hpm] at h
        rcases afterDispatch_some_cases re E (sp + re.pfx.length) text.length
            (ncapOf re nsub) buf rb _ h with
          ⟨hd, hrb⟩ | ⟨m, hd, hle, hrb⟩ | hcaps
        · left
          refine ⟨?_, hrb⟩
          have := dispatch_earlyTrue_wantMatch re E (sp + re.pfx.length) text.length
            (if promoteAnchor re anc = Anchor.ANCHOR_BOTH then promoteAnchor re anc
              else Anchor.ANCHOR_START) (!(nsub = 0)) (ncapOf re nsub) hd
          simpa using this
        · exact Or.inr (Or.inl ⟨m,
            dispatch_located_dfaSpan re E (sp + re.pfx.length) text.length _
              (!(nsub = 0)) (ncapOf re nsub) m hd, hle, hrb⟩)
        · exact Or.inr (Or.inr hcaps)
      · rw [if_neg hpm] at h
        simp at h
  · rw [if_neg hok] at h
    simp at h

theorem set_getD_zero (b : List Span) (x d : Span) (h : b ≠ []) :
    (b.set 0 x).getD 0 d = x := by
  rcases b with _ | ⟨s, rest⟩
  · exact absurd rfl h
  · rfl

theorem writeCaps_length (ncap : Nat) (caps b : List Span) :
    (writeCaps ncap caps b).length = b.length :=
  writeCapsAux_length ncap caps b 0

/-- C4: on every successful `Match` with `nsubmatch` submatch slots,
`submatch[0]` is the whole match (the span delivered by the engines, with
the required prefix put back), `submatch[k]` for `1 <= k < ncap` is the
k-th capture slot exactly as the engine reported it, and every slot with
index at least `1 + NumberOfCapturingGroups()` is set to the null range.
`Q` is an arbitrary per-index contract on the spans the engines report
(the engines' semantics are external), and the conclusion transports it to
the caller's buffer. -/
theorem c4_submatch_layout
    (re : RE2) (E : Engines) (text : List Nat) (sp : Nat) (anc : Anchor)
    (buf out : List Span) (nsub : Nat) (Q : Nat → Span → Prop)
    (hlen : nsub ≤ buf.length)
    (hdfa : ∀ m, DFASpan E m → Q 0 m)
    (heng : ∀ caps, EngineCaps E (ncapOf re nsub) caps →
      ∀ j, j < ncapOf re nsub → Q j (caps.getD j Span.null))
    (h : re2Match re E text sp anc buf nsub = (true, out)) :
    (∀ i, 1 + re.num_captures ≤ i → i < nsub → out.getD i Span.null = Span.null)
    ∧ (0 < nsub → ∃ s, Q 0 s ∧ out.getD 0 Span.null = widenLeft re.pfx.length s)
    ∧ (∀ k, 1 ≤ k → k < ncapOf re nsub → Q k (out.getD k Span.null)) := by
  obtain ⟨rb, hraw, hout⟩ := re2Match_true_raw re E text sp anc buf nsub out h
  subst hout
  have hcases := re2MatchRaw_success_cases re E text sp anc buf nsub rb hraw
  refine ⟨?_, ?_, ?_⟩
  · intro i h1 h2
    exact zeroFrom_getD_null (ncapOf re nsub) nsub i _
      (le_trans (min_le_left _ _) h1) h2
  · intro hn
    have hnc : 0 < ncapOf re nsub := by
      have : 1 ≤ 1 + re.num_captures := by omega
      simp only [ncapOf]
      omega
    rw [zeroFrom_getD_lt _ _ 0 _ _ hnc]
    rcases hcases with ⟨hz, _⟩ | ⟨m, hm, hle, hrb⟩ | ⟨caps, hcaps, hrb⟩
    · omega
    · have hn1 : ncapOf re nsub = 1 := by omega
      rw [hn1] at hrb
      simp only [if_true] at hrb
      have hbne : buf ≠ [] := by
        intro hb
        rw [hb] at hlen
        simp at hlen
        omega
      have hrbne : rb ≠ [] := by
        intro hb
        rw [hb] at hrb
        rcases buf with _ | ⟨s, rest⟩
        · exact absurd rfl hbne
        · simp [List.set] at hrb
      rw [pfxFixup_getD_zero _ _ _ hn hrbne]
      refine ⟨rb.getD 0 Span.null, ?_, rfl⟩
      rw [hrb, set_getD_zero buf m Span.null hbne]
      exact hdfa m hm
    · have hrbne : rb ≠ [] := by
        intro hb
        have := writeCaps_length (ncapOf re nsub) caps buf
        rw [← hrb, hb] at this
        simp at this
        omega
      rw [pfxFixup_getD_zero _ _ _ hn hrbne]
      refine ⟨rb.getD 0 Span.null, ?_, rfl⟩
      rw [hrb, writeCaps_getD_lt _ _ _ _ _ hnc (by omega)]
      exact heng caps hcaps 0 hnc
  · intro k hk1 hk2
    rw [zeroFrom_getD_lt _ _ k _ _ hk2, pfxFixup_getD_succ _ _ k _ _ hk1]
    rcases hcases with ⟨hz, _⟩ | ⟨m, hm, hle, hrb⟩ | ⟨caps, hcaps, hrb⟩
    · have : ncapOf re nsub ≤ nsub := min_le_right _ _
      omega
    · omega
    · have hkb : k < buf.length := by
        have : ncapOf re nsub ≤ nsub := min_le_right _ _
        omega
      rw [hrb, writeCaps_getD_lt _ _ _ _ _ hk2 hkb]
      exact heng caps hcaps k hk2

/-- Witness for C4 at a concrete anchored one-pass pattern with one
capturing group and three requested submatch slots: the slot beyond
`1 + NumberOfCapturingGroups()` comes back null. -/
theorem c4_submatch_layout_witness :
    re2Match reAnch (allYesE 5 dfaYes) [98, 99] 0 Anchor.UNANCHORED
      (List.replicate 3 Span.null) 3 = (true, [Span.range 0 0, Span.range 0 0, Span.null])
    ∧ (∀ i, 1 + reAnch.num_captures ≤ i → i < 3 →
        ([Span.range 0 0, Span.range 0 0, Span.null] : List Span).getD i Span.null
          = Span.null) := by
  have h : re2Match reAnch (allYesE 5 dfaYes) [98, 99] 0 Anchor.UNANCHORED
      (List.replicate 3 Span.null) 3 = (true, [Span.range 0 0, Span.range 0 0, Span.null]) := by
    decide
  refine ⟨h, ?_⟩
  exact (c4_submatch_layout reAnch (allYesE 5 dfaYes) [98, 99] 0 Anchor.UNANCHORED
    (List.replicate 3 Span.null) [Span.range 0 0, Span.range 0 0, Span.null] 3
    (fun _ _ => True) (by decide) (fun _ _ => trivial) (fun _ _ _ _ => trivial) h).1

/-- C2: for a pattern with a non-empty required literal prefix, `Match`
returns false (leaving the buffer untouched) whenever the prefix filter
rejects — which happens exactly when fewer than `|prefix|` bytes remain
after the start offset, or the leading bytes differ under plain comparison
(or ASCII case-insensitive comparison when `prefixFoldCase`); and on every
successful match with `nsubmatch > 0`, `submatch[0]` is widened leftward
by exactly `|prefix|` bytes relative to the engine-reported span, so a
span starting right after the prefix comes back starting at the beginning
of the prefix occurrence. -/
theorem c2_required_prefix_filter
    (re : RE2) (E : Engines) (text : List Nat) (sp : Nat) (anc : Anchor)
    (buf : List Span) (nsub : Nat) :
    (pfxMatches re text sp = false → re2Match re E text sp anc buf nsub = (false, buf))
    ∧ (pfxMatches re text sp = true ↔
        (re.pfx.length ≤ (text.drop sp).length
          ∧ (if re.pfxFold then re.pfx = ((text.drop sp).take re.pfx.length).map foldByte
             else re.pfx = (text.drop sp).take re.pfx.length)))
    ∧ (∀ rb b e, re2MatchRaw re E text sp anc buf nsub = some rb → 0 < nsub →
        rb.getD 0 Span.null = Span.range b e →
        (re2Match re E text sp anc buf nsub).1 = true
        ∧ (re2Match re E text sp anc buf nsub).2.getD 0 Span.null
            = Span.range (b - re.pfx.length) e)
    ∧ (∀ rb e, re2MatchRaw re E text sp anc buf nsub = some rb → 0 < nsub →
        rb.getD 0 Span.null = Span.range (sp + re.pfx.length) e →
        (re2Match re E text sp anc buf nsub).2.getD 0 Span.null = Span.range sp e) := by
  have key : ∀ rb b e, re2MatchRaw re E text sp anc buf nsub = some rb → 0 < nsub →
      rb.getD 0 Span.null = Span.range b e →
      (re2Match re E text sp anc buf nsub).1 = true
      ∧ (re2Match re E text sp anc buf nsub).2.getD 0 Span.null
          = Span.range (b - re.pfx.length) e := by
    intro rb b e hraw hn hrb0
    have hM := re2Match_eq_of_raw re E text sp anc buf nsub rb hraw
    rw [hM]
    refine ⟨rfl, ?_⟩
    have hnc : 0 < ncapOf re nsub := by
      simp only [ncapOf]
      omega
    have hrbne : rb ≠ [] := by
      intro hnil
      rw [hnil] at hrb0
      simp [List.getD] at hrb0
    simp only
    rw [zeroFrom_getD_lt _ _ 0 _ _ hnc, pfxFixup_getD_zero _ _ _ hn hrbne, hrb0]
    rfl
  refine ⟨?_, ?_, key, ?_⟩
  · intro hpm
    have hraw : re2MatchRaw re E text sp anc buf nsub = none := by
      unfold re2MatchRaw
      by_cases hok : re.ok
      · rw [if_pos hok]
        have hpe : ¬(re.pfx.isEmpty = true) := by
          intro hpe
          rw [pfxMatches_of_isEmpty re text sp hpe] at hpm
          exact absurd hpm (by simp)
        rw [if_neg hpe, if_neg (by simp [hpm])]
      · rw [if_neg hok]
    simp [re2Match, hraw]
  · constructor
    · intro h
      unfold pfxMatches at h
      by_cases hgt : re.pfx.length > (text.drop sp).length
      · rw [if_pos hgt] at h
        exact absurd h (by simp)
      · rw [if_neg hgt] at h
        refine ⟨by omega, ?_⟩
        cases hf : re.pfxFold
        · rw [hf] at h
          simpa using h
        · rw [hf] at h
          simpa using h
    · rintro ⟨h1, h2⟩
      unfold pfxMatches
      rw [if_neg (by omega)]
      cases hf : re.pfxFold
      · rw [hf] at h2
        simpa using h2
      · rw [hf] at h2
        simpa using h2
  · intro rb e hraw hn hrb0
    have h := (key rb (sp + re.pfx.length) e hraw hn hrb0).2
    rw [h]
    congr 1
    omega

/-- Witness for C2 with the prefix-`"a"` pattern: a text not starting with
`a` is rejected without consulting any engine, and on a successful match
the engine-reported span `[1, 2)` is widened to `[0, 2)`, the beginning of
the prefix occurrence. -/
theorem c2_required_prefix_filter_witness :
    pfxMatches rePfxA [98, 97] 0 = false
    ∧ re2Match rePfxA engWin [98, 97] 0 Anchor.UNANCHORED [Span.null] 1 = (false, [Span.null])
    ∧ re2MatchRaw rePfxA engWin [97, 98] 0 Anchor.UNANCHORED [Span.null] 1
        = some [Span.range 1 2]
    ∧ (re2Match rePfxA engWin [97, 98] 0 Anchor.UNANCHORED [Span.null] 1).2.getD 0 Span.null
        = Span.range 0 2 := by
  refine ⟨by decide, ?_, by decide, ?_⟩
  · exact (c2_required_prefix_filter rePfxA engWin [98, 97] 0 Anchor.UNANCHORED
      [Span.null] 1).1 (by decide)
  · exact (c2_required_prefix_filter rePfxA engWin [97, 98] 0 Anchor.UNANCHORED
      [Span.null] 1).2.2.2 [Span.range 1 2] 2 (by decide) (by decide) (by decide)

/-- C3: in an anchored `Match` (effective anchor `ANCHOR_START` or
`ANCHOR_BOTH`), the forward DFA is skipped exactly under the spec's
condition — (one-pass, capture count within the one-pass cap,
`|text| <= 4096`, and captures `> 1` or `|text| <= 8`) or (program size
`<= 500`, `|text| <= floor(256*1024/program size)`, and captures `> 1`):
the source condition equals the spec condition; when it holds the result
of `Match` is independent of the forward DFA oracle (the match proceeds
straight to the capture-aware engine ladder); and when it fails the
forward DFA is consulted — a no-match DFA forces false while an
all-succeeding bundle returns true. -/
theorem c3_anchored_dfa_skip
    (re : RE2) (text : List Nat) (sp : Nat) (anc : Anchor) (buf : List Span) (nsub : Nat)
    (hok : re.ok = true)
    (hpfx : re.pfx.isEmpty = true ∨ pfxMatches re text sp = true)
    (hanc : ¬ effAnchor re anc = Anchor.UNANCHORED) :
    (∀ cap, dfaSkipAnchored re cap text.length (ncapOf re nsub)
        = dfaSkipSpec re cap text.length (ncapOf re nsub))
    ∧ (∀ (E : Engines) (f : Nat → Nat → ProgAnchor → MatchKind → Bool → DFAOut),
        dfaSkipAnchored re E.maxOnePassCapture text.length (ncapOf re nsub) = true →
        re2Match re { E with searchDFA := f } text sp anc buf nsub
          = re2Match re E text sp anc buf nsub)
    ∧ (∀ cap, dfaSkipAnchored re cap text.length (ncapOf re nsub) = false →
        (re2Match re (allYesE cap dfaNo) text sp anc buf nsub).1 = false
        ∧ (re2Match re (allYesE cap dfaYes) text sp anc buf nsub).1 = true) := by
  have hiff : ∀ cap, dfaSkipAnchored re cap text.length (ncapOf re nsub) = true ↔
      ((canOnePass re cap (ncapOf re nsub) = true ∧ text.length ≤ 4096
          ∧ (1 < ncapOf re nsub ∨ text.length ≤ 8))
        ∨ (canBitState re = true ∧ text.length ≤ bitMax re ∧ 1 < ncapOf re nsub)) := by
    intro cap
    simp only [dfaSkipAnchored, Bool.or_eq_true, Bool.and_eq_true, decide_eq_true_eq]
    tauto
  have hanc1 : re.pfx.isEmpty = true → ¬ promoteAnchor re anc = Anchor.UNANCHORED := by
    intro hpe h
    unfold effAnchor at hanc
    rw [if_pos hpe] at hanc
    exact hanc h
  have hanc2 : ¬ (if promoteAnchor re anc = Anchor.ANCHOR_BOTH then promoteAnchor re anc
      else Anchor.ANCHOR_START) = Anchor.UNANCHORED := by
    split <;> simp_all
  have hdispSkip : ∀ (E : Engines) (lo : Nat) (anc2 : Anchor), ¬ anc2 = Anchor.UNANCHORED →
      dfaSkipAnchored re E.maxOnePassCapture text.length (ncapOf re nsub) = true →
      dispatch re E lo text.length anc2 (!(nsub = 0)) (ncapOf re nsub)
        = DispatchOut.skipped ProgAnchor.kAnchored
            (if anc2 = Anchor.ANCHOR_BOTH then MatchKind.kFullMatch else kind0 re) := by
    intro E lo anc2 h2 hskip
    rcases (hiff E.maxOnePassCapture).1 hskip with h1 | h1
    · rcases anc2 with _ | _ | _
      · exact absurd rfl h2
      · simp only [dispatch]
        rw [if_pos h1]
      · simp only [dispatch]
        rw [if_pos h1]
    · rcases anc2 with _ | _ | _
      · exact absurd rfl h2
      · simp only [dispatch]
        by_cases hfirst : canOnePass re E.maxOnePassCapture (ncapOf re nsub) = true
            ∧ text.length ≤ 4096 ∧ (1 < ncapOf re nsub ∨ text.length ≤ 8)
        · rw [if_pos hfirst]
        · rw [if_neg hfirst, if_pos h1]
      · simp only [dispatch]
        by_cases hfirst : canOnePass re E.maxOnePassCapture (ncapOf re nsub) = true
            ∧ text.length ≤ 4096 ∧ (1 < ncapOf re nsub ∨ text.length ≤ 8)
        · rw [if_pos hfirst]
        · rw [if_neg hfirst, if_pos h1]
  refine ⟨?_, ?_, ?_⟩
  · intro cap
    rfl
  · intro E f hskip
    have hraw : re2MatchRaw re { E with searchDFA := f } text sp anc buf nsub
        = re2MatchRaw re E text sp anc buf nsub := by
      unfold re2MatchRaw
      rw [if_pos hok, if_pos hok]
      by_cases hpe : re.pfx.isEmpty = true
      · rw [if_pos hpe, if_pos hpe]
        rw [hdispSkip { E with searchDFA := f } sp (promoteAnchor re anc) (hanc1 hpe) hskip,
            hdispSkip E sp (promoteAnchor re anc) (hanc1 hpe) hskip]
        rfl
      · have hpm : pfxMatches re text sp = true := by
          rcases hpfx with h | h
          · exact absurd h hpe
          · exact h
        rw [if_neg hpe, if_neg hpe, if_pos hpm, if_pos hpm]
        rw [hdispSkip { E with searchDFA := f } (sp + re.pfx.length) _ hanc2 hskip,
            hdispSkip E (sp + re.pfx.length) _ hanc2 hskip]
        rfl
    simp [re2Match, hraw]
  · intro cap hskipf
    have hnot : ¬((canOnePass re cap (ncapOf re nsub) = true ∧ text.length ≤ 4096
        ∧ (1 < ncapOf re nsub ∨ text.length ≤ 8))
      ∨ (canBitState re = true ∧ text.length ≤ bitMax re ∧ 1 < ncapOf re nsub)) := by
      intro hcon
      rw [(hiff cap).2 hcon] at hskipf
      exact absurd hskipf (by simp)
    have hnot1 : ¬(canOnePass re cap (ncapOf re nsub) = true ∧ text.length ≤ 4096
        ∧ (1 < ncapOf re nsub ∨ text.length ≤ 8)) := fun h => hnot (Or.inl h)
    have hnot2 : ¬(canBitState re = true ∧ text.length ≤ bitMax re
        ∧ 1 < ncapOf re nsub) := fun h => hnot (Or.inr h)
    have hdispNo : ∀ (lo : Nat) (anc2 : Anchor), ¬ anc2 = Anchor.UNANCHORED →
        dispatch re (allYesE cap dfaNo) lo text.length anc2 (!(nsub = 0)) (ncapOf re nsub)
          = DispatchOut.nomatch := by
      intro lo anc2 h2
      rcases anc2 with _ | _ | _
      · exact absurd rfl h2
      · simp only [dispatch, allYesE]
        rw [if_neg hnot1, if_neg hnot2]
        simp [dfaNo]
      · simp only [dispatch, allYesE]
        rw [if_neg hnot1, if_neg hnot2]
        simp [dfaNo]
    have hdispYes : ∀ (lo : Nat) (anc2 : Anchor), ¬ anc2 = Anchor.UNANCHORED →
        dispatch re (allYesE cap dfaYes) lo text.length anc2 (!(nsub = 0)) (ncapOf re nsub)
          = DispatchOut.located (Span.range lo lo) := by
      intro lo anc2 h2
      rcases anc2 with _ | _ | _
      · exact absurd rfl h2
      · simp only [dispatch, allYesE]
        rw [if_neg hnot1, if_neg hnot2]
        simp [dfaYes]
      · simp only [dispatch, allYesE]
        rw [if_neg hnot1, if_neg hnot2]
        simp [dfaYes]
    have hladder : ∀ (d : Nat → Nat → ProgAnchor → MatchKind → Bool → DFAOut)
        (lo hi : Nat) (a : ProgAnchor) (k : MatchKind) (n : Nat) (buf2 : List Span),
        ∃ rb, ladder re (allYesE cap d) lo hi a k n buf2 = some rb := by
      intro d lo hi a k n buf2
      unfold ladder
      split
      · exact ⟨_, rfl⟩
      · split
        · exact ⟨_, rfl⟩
        · exact ⟨_, rfl⟩
    have hafterYes : ∀ (lo : Nat),
        ∃ rb, afterDispatch re (allYesE cap dfaYes) lo text.length (ncapOf re nsub) buf
          (DispatchOut.located (Span.range lo lo)) = some rb := by
      intro lo
      simp only [afterDispatch]
      by_cases hle : ncapOf re nsub ≤ 1
      · rw [if_pos hle]
        exact ⟨_, rfl⟩
      · rw [if_neg hle]
        exact hladder dfaYes _ _ _ _ _ _
    have hrawNo : re2MatchRaw re (allYesE cap dfaNo) text sp anc buf nsub = none := by
      unfold re2MatchRaw
      rw [if_pos hok]
      by_cases hpe : re.pfx.isEmpty = true
      · rw [if_pos hpe, hdispNo sp (promoteAnchor re anc) (hanc1 hpe)]
        rfl
      · have hpm : pfxMatches re text sp = true := by
          rcases hpfx with h | h
          · exact absurd h hpe
          · exact h
        rw [if_neg hpe, if_pos hpm, hdispNo (sp + re.pfx.length) _ hanc2]
        rfl
    have hrawYes : ∃ rb,
        re2MatchRaw re (allYesE cap dfaYes) text sp anc buf nsub = some rb := by
      unfold re2MatchRaw
      rw [if_pos hok]
      by_cases hpe : re.pfx.isEmpty = true
      · rw [if_pos hpe, hdispYes sp (promoteAnchor re anc) (hanc1 hpe)]
        exact hafterYes sp
      · have hpm : pfxMatches re text sp = true := by
          rcases hpfx with h | h
          · exact absurd h hpe
          · exact h
        rw [if_neg hpe, if_pos hpm, hdispYes (sp + re.pfx.length) _ hanc2]
        exact hafterYes (sp + re.pfx.length)
    obtain ⟨rb, hrb⟩ := hrawYes
    exact ⟨by simp [re2Match, hrawNo], by simp [re2Match, hrb]⟩

/-- Witness for C3: for the self-anchored one-pass pattern with one group
on a 2-byte text with two requested captures the skip condition holds and
the result does not depend on the forward DFA; on a 9-byte text with one
requested capture the condition fails and the forward DFA decides the
outcome. -/
theorem c3_anchored_dfa_skip_witness :
    dfaSkipAnchored reAnch 5 2 (ncapOf reAnch 2) = true
    ∧ re2Match reAnch { allYesE 5 dfaYes with searchDFA := dfaNo } [98, 99] 0
        Anchor.UNANCHORED (List.replicate 2 Span.null) 2
      = re2Match reAnch (allYesE 5 dfaYes) [98, 99] 0 Anchor.UNANCHORED
        (List.replicate 2 Span.null) 2
    ∧ dfaSkipAnchored reAnch 5 9 (ncapOf reAnch 1) = false
    ∧ (re2Match reAnch (allYesE 5 dfaNo) [98, 98, 98, 98, 98, 98, 98, 98, 98] 0
        Anchor.UNANCHORED [Span.null] 1).1 = false
    ∧ (re2Match reAnch (allYesE 5 dfaYes) [98, 98, 98, 98, 98, 98, 98, 98, 98] 0
        Anchor.UNANCHORED [Span.null] 1).1 = true := by
  refine ⟨by decide, ?_, by decide, ?_, ?_⟩
  · exact (c3_anchored_dfa_skip reAnch [98, 99] 0 Anchor.UNANCHORED
      (List.replicate 2 Span.null) 2 (by decide) (Or.inl (by decide)) (by decide)).2.1
      (allYesE 5 dfaYes) dfaNo (by decide)
  · exact ((c3_anchored_dfa_skip reAnch [98, 98, 98, 98, 98, 98, 98, 98, 98] 0
      Anchor.UNANCHORED [Span.null] 1 (by decide) (Or.inl (by decide)) (by decide)).2.2
      5 (by decide)).1
  · exact ((c3_anchored_dfa_skip reAnch [98, 98, 98, 98, 98, 98, 98, 98, 98] 0
      Anchor.UNANCHORED [Span.null] 1 (by decide) (Or.inl (by decide)) (by decide)).2.2
      5 (by decide)).2

end RE2V
